import Mathlib

/-!
# connx4: the Connect-Four board engine and session manager

A shallow embedding of `server/game.go` and `server/server.go`.

* Go's `[6][7]int` is a function `Fin 6 → Fin 7 → Int`; an index outside the
  array cannot be formed, as in Go where it panics.
* Go's `int` is `Int`: the code performs no arithmetic that could overflow
  (counts are at most 6, indices move by one).
* `for { ... }` in `countDirection` is a loop with fuel; running out of fuel is
  `none`, so every function that calls it returns an `Option`.
-/

namespace Connx4

/-! ## game.go -/

/-- The grid `[6][7]int`: row 0 is the top row, row 5 the bottom row. -/
abbrev Board := Fin 6 → Fin 7 → Int

/-- Go: `type Game struct { Board; CurrentTurn; IsOver; Winner }`. -/
structure Game where
  Board : Board
  CurrentTurn : Int
  IsOver : Bool
  Winner : Int

/-- The zero value `[6][7]int{}`. -/
def emptyBoard : Board := fun _ _ => 0

/-- Go: `NewGame()`. -/
def NewGame : Game :=
  { Board := emptyBoard, CurrentTurn := 1, IsOver := false, Winner := 0 }

/-- The assignment `g.Board[row][col] = v`. -/
def setCell (b : Board) (row : Fin 6) (col : Fin 7) (v : Int) : Board :=
  fun r c => if r = row ∧ c = col then v else b r c

/-- Go: `(g *Game) toggleTurn()`. -/
def toggleTurn (g : Game) : Game :=
  if g.CurrentTurn = 1 then { g with CurrentTurn := 2 } else { g with CurrentTurn := 1 }

/-- Go: `(g *Game) isBoardFull()`: the loop over `col = 0 .. 6` that returns
false at the first empty cell of row 0. -/
def isBoardFull (g : Game) : Bool :=
  (List.finRange 7).all (fun col => !(g.Board 0 col == 0))

/-- The body of the `for { ... }` loop of `countDirection`, with fuel:
`none` when the fuel runs out before the loop breaks. -/
def countLoop (b : Board) (player : Int) (deltaRow deltaCol : Int) :
    Nat → Int → Int → Int → Option Int
  | 0, _, _, _ => none
  | fuel + 1, row, col, count =>
    let row := row + deltaRow
    let col := col + deltaCol
    if h : row < 0 ∨ row > 5 ∨ col < 0 ∨ col > 6 then
      some count
    else if b ⟨row.toNat, by omega⟩ ⟨col.toNat, by omega⟩ ≠ player then
      some count
    else
      countLoop b player deltaRow deltaCol fuel row col (count + 1)

/-- Iterations after which the loop of `countDirection` has broken whenever it
breaks at all (see `countLoop_fuel_enough`). -/
def loopFuel : Nat := 8

/-- Go: `(g *Game) countDirection(row, col, deltaRow, deltaCol)`. -/
def countDirection (g : Game) (row col deltaRow deltaCol : Int) : Option Int :=
  countLoop g.Board g.CurrentTurn deltaRow deltaCol loopFuel row col 0

/-- The slice `directions` of `checkWin`. -/
def directions : List (Int × Int) := [(0, 1), (1, 0), (1, 1), (1, -1)]

/-- The `for _, dir := range directions` loop of `checkWin`, followed by the
`isBoardFull` test once the loop is exhausted. -/
def checkWinLoop (g : Game) (row col : Int) : List (Int × Int) → Option Game
  | [] => some (if isBoardFull g then { g with IsOver := true } else g)
  | dir :: rest =>
    match countDirection g row col dir.1 dir.2 with
    | none => none
    | some a =>
      match countDirection g row col (-dir.1) (-dir.2) with
      | none => none
      | some b =>
        let count := 1 + a + b
        if count ≥ 4 then
          some { g with IsOver := true, Winner := g.CurrentTurn }
        else
          checkWinLoop g row col rest

/-- Go: `(g *Game) checkWin(row, col)`. -/
def checkWin (g : Game) (row col : Int) : Option Game :=
  checkWinLoop g row col directions

/-- The loop `for row := 5; row >= 0; row--` of `DropPiece`; `n` is `row + 1`,
so `n = 0` is the exit of the loop (`return false`). -/
def dropLoop (g : Game) (column : Fin 7) : (n : Nat) → n ≤ 6 → Option (Game × Bool)
  | 0, _ => some (g, false)
  | n + 1, h =>
    if g.Board ⟨n, by omega⟩ column = 0 then
      let g1 := { g with Board := setCell g.Board ⟨n, by omega⟩ column g.CurrentTurn }
      match checkWin g1 (n : Int) (column.val : Int) with
      | none => none
      | some g2 => some (toggleTurn g2, true)
    else
      dropLoop g column n (by omega)

/-- Go: `(g *Game) DropPiece(column int) bool`: the state after the call and
the returned flag. -/
def DropPiece (g : Game) (column : Int) : Option (Game × Bool) :=
  if h : column < 0 ∨ column > 6 ∨ g.IsOver = true then
    some (g, false)
  else
    dropLoop g ⟨column.toNat, by omega⟩ 6 (le_refl 6)

/-- The states the board engine can be in: `NewGame()` followed by any number
of `DropPiece` calls, applied or rejected. -/
inductive Reachable : Game → Prop
  | init : Reachable NewGame
  | step {g g' : Game} {b : Bool} (column : Int) :
      Reachable g → DropPiece g column = some (g', b) → Reachable g'

/-- Plays a list of columns in order, ignoring the returned flags. -/
def playMoves : Game → List Int → Option Game
  | g, [] => some g
  | g, column :: rest =>
    match DropPiece g column with
    | none => none
    | some (g', _) => playMoves g' rest

/-! ### Specification vocabulary -/

/-- The cell at integer coordinates, `none` outside the 6x7 grid. -/
def cellAt (b : Board) (row col : Int) : Option Int :=
  if h : 0 ≤ row ∧ row ≤ 5 ∧ 0 ≤ col ∧ col ≤ 6 then
    some (b ⟨row.toNat, by omega⟩ ⟨col.toNat, by omega⟩)
  else none

/-- Four cells starting at `(row, col)` and stepping by `(dr, dc)` all lie on
the grid and hold `p`. -/
def lineOfFour (b : Board) (p : Int) (row col dr dc : Int) : Prop :=
  ∀ k ∈ ([0, 1, 2, 3] : List Int), cellAt b (row + k * dr) (col + k * dc) = some p

instance (b : Board) (p row col dr dc : Int) : Decidable (lineOfFour b p row col dr dc) := by
  unfold lineOfFour; infer_instance

/-- The board holds four contiguous `p` in a horizontal, vertical or diagonal
line. -/
def hasFour (b : Board) (p : Int) : Prop :=
  ∃ row ∈ ([0, 1, 2, 3, 4, 5] : List Int), ∃ col ∈ ([0, 1, 2, 3, 4, 5, 6] : List Int),
    ∃ d ∈ directions, lineOfFour b p row col d.1 d.2

instance (b : Board) (p : Int) : Decidable (hasFour b p) := by
  unfold hasFour; infer_instance

/-- Gravity: a non-empty cell above the bottom row rests on a non-empty cell. -/
def Contiguous (b : Board) : Prop :=
  ∀ (r : Fin 6) (c : Fin 7) (h : r.val < 5), b r c ≠ 0 → b ⟨r.val + 1, by omega⟩ c ≠ 0

instance (b : Board) : Decidable (Contiguous b) := by
  unfold Contiguous; infer_instance

/-- The test `count >= 4` of `checkWin` succeeds for the axis `d` through `(row, col)`. -/
def winsAt (g : Game) (row col : Int) (d : Int × Int) : Prop :=
  ∃ a b, countDirection g row col d.1 d.2 = some a ∧
    countDirection g row col (-d.1) (-d.2) = some b ∧ 1 + a + b ≥ 4

/-- Every four-in-a-row of a player is recorded as that player's win. -/
def WinRecorded (g : Game) : Prop :=
  ∀ p : Int, p = 1 ∨ p = 2 → hasFour g.Board p → g.IsOver = true ∧ g.Winner = p

/-- The state after playing `cols` from `NewGame()`. -/
def afterMoves (cols : List Int) : Game := (playMoves NewGame cols).getD NewGame

/-- A game that player 1 wins on a rising diagonal with the eleventh move. -/
def diagonalGame : List Int := [0, 1, 1, 2, 2, 3, 2, 3, 3, 5, 3]

/-- A game of 42 moves that fills the grid without any line of four. -/
def drawnGame : List Int :=
  [0, 0, 0, 0, 0, 0, 1, 2, 2, 1, 1, 2, 2, 1, 1, 2, 2, 1, 4, 3, 3, 4, 4, 3, 3, 4, 4, 3, 3, 4,
   5, 6, 6, 5, 5, 6, 6, 5, 5, 6, 6, 5]

/-! ## server.go

Handlers run one at a time: each takes the session lock on entry and releases
it on return, so a handler is a function from server state to server state.
A `*Client` is a record carrying its pointer identity `id`; the `clients` map
is the list of the records it holds. A handler is only ever called for a
client that `handleConnections` has registered, so a handler given an `id`
that is not registered is `none`, as is one that dereferences a nil `*Game`.
-/

/-- A decoded inbound message, by its `type` field. -/
inductive InMsg
  | move (column : Int)
  | play_again
  | other

/-- A message enqueued on a client's `Send` channel; `game_state` carries the
snapshot `games[gameID]` serialised at that moment (JSON `null` for a nil game). -/
inductive OutMsg
  | init (player : Int)
  | game_state (game : Option Game)
  | reset

/-- Go: `type Client struct`; `Send` is the sequence of messages put on the
channel so far, oldest first. -/
structure Client where
  id : Nat
  GameID : String
  Player : Int
  PlayAgain : Bool
  Send : List OutMsg

/-- The package-level variables `clients`, `games` and `gameLocks`. -/
structure Server where
  clients : List Client
  games : String → Option Game
  gameLocks : String → Bool

/-- The assignment `games[gameID] = game`. -/
def setGame (games : String → Option Game) (gameID : String) (game : Option Game) :
    String → Option Game :=
  fun k => if k = gameID then game else games k

/-- Go: `getGameLock(gameID)`: the mutex is created on first use. -/
def getGameLock (s : Server) (gameID : String) : Server :=
  if s.gameLocks gameID then s
  else { s with gameLocks := fun k => if k = gameID then true else s.gameLocks k }

/-- The pointer dereference: the registered record with identity `id`. -/
def clientById (s : Server) (id : Nat) : Option Client :=
  s.clients.find? (fun client => client.id == id)

/-- Go: `otherPlayer(player)`. -/
def otherPlayer (player : Int) : Int :=
  if player = 1 then 2 else 1

/-- Go: `getClientsInGame(gameID)`. -/
def getClientsInGame (s : Server) (gameID : String) : List Client :=
  s.clients.filter (fun client => client.GameID == gameID)

/-- Go: `getPlayersInGame(gameID)`. -/
def getPlayersInGame (s : Server) (gameID : String) : List Int :=
  (s.clients.filter (fun client => client.GameID == gameID)).map (fun client => client.Player)

/-- Go: `allPlayersReady(gameID)`. -/
def allPlayersReady (s : Server) (gameID : String) : Bool :=
  s.clients.all (fun client => !(client.GameID == gameID && !client.PlayAgain))

/-- The channel send `client.Send <- msg`. -/
def enqueue (msg : OutMsg) (client : Client) : Client :=
  { client with Send := client.Send ++ [msg] }

/-- Go: `broadcastGameState(gameID)`. -/
def broadcastGameState (s : Server) (gameID : String) : Server :=
  let msg := OutMsg.game_state (s.games gameID)
  { s with clients := s.clients.map (fun client =>
      if client.GameID = gameID then enqueue msg client else client) }

/-- Go: `sendGameState(client)`. -/
def sendGameState (s : Server) (client : Client) : Client :=
  enqueue (OutMsg.game_state (s.games client.GameID)) client

/-- Go: `resetGame(gameID)`. -/
def resetGame (s : Server) (gameID : String) : Server :=
  let s1 : Server := { s with games := setGame s.games gameID (some NewGame) }
  let s2 : Server := { s1 with clients := s1.clients.map (fun client =>
      if client.GameID = gameID then { client with PlayAgain := false } else client) }
  { s2 with clients := s2.clients.map (fun client =>
      if client.GameID = gameID then sendGameState s2 (enqueue OutMsg.reset client)
      else client) }

/-- The assignment `client.PlayAgain = true` through the pointer `id`. -/
def markPlayAgain (s : Server) (id : Nat) : Server :=
  { s with clients := s.clients.map (fun client =>
      if client.id = id then { client with PlayAgain := true } else client) }

/-- Go: `handleMessage(client, msg)`. -/
def handleMessage (s : Server) (id : Nat) (msg : InMsg) : Option Server :=
  match clientById s id with
  | none => none
  | some client =>
    let gameID := client.GameID
    let s := getGameLock s gameID
    let game := s.games gameID
    match msg with
    | InMsg.move column =>
      match game with
      | none => none
      | some game =>
        if game.CurrentTurn ≠ client.Player ∨ game.IsOver = true then
          some s
        else
          match DropPiece game column with
          | none => none
          | some (game', success) =>
            let s := { s with games := setGame s.games gameID (some game') }
            if success then some (broadcastGameState s gameID) else some s
    | InMsg.play_again =>
      let s := markPlayAgain s id
      if allPlayersReady s gameID then some (resetGame s gameID) else some s
    | InMsg.other => some s

/-- Go: `handleClientDisconnect(client)`. -/
def handleClientDisconnect (s : Server) (id : Nat) : Option Server :=
  match clientById s id with
  | none => none
  | some client =>
    let s : Server := { s with clients := s.clients.filter (fun c => !(c.id == id)) }
    let gameID := client.GameID
    let s := getGameLock s gameID
    let game := s.games gameID
    match getClientsInGame s gameID with
    | [] =>
      some { s with
        games := setGame s.games gameID none,
        gameLocks := fun k => if k = gameID then false else s.gameLocks k }
    | [remainingClient] =>
      match game with
      | none => none
      | some game =>
        let game := { game with
          IsOver := false, Winner := 0, CurrentTurn := remainingClient.Player,
          Board := emptyBoard }
        some (broadcastGameState { s with games := setGame s.games gameID (some game) } gameID)
    | _ :: _ :: _ =>
      match game with
      | none => none
      | some game =>
        if game.CurrentTurn = client.Player then
          let game := { game with CurrentTurn := otherPlayer client.Player }
          some (broadcastGameState { s with games := setGame s.games gameID (some game) } gameID)
        else
          some s

/-- Go: `handleConnections`, from the upgrade to the first `sendGameState`:
`id` is the identity of the freshly allocated `Client`, `query` the `game_id`
parameter. The flag is false when the connection was refused as `Game is full`. -/
def handleConnections (s : Server) (id : Nat) (query : String) : Server × Bool :=
  let gameID := if query = "" then "game-1" else query
  let s := getGameLock s gameID
  let accept (player : Int) : Server × Bool :=
    let client : Client :=
      { id := id, GameID := gameID, Player := player, PlayAgain := false, Send := [] }
    let games := match s.games gameID with
      | some _ => s.games
      | none => setGame s.games gameID (some NewGame)
    let client := enqueue (OutMsg.init client.Player) client
    let client := enqueue (OutMsg.game_state (games gameID)) client
    ({ s with clients := s.clients ++ [client], games := games }, true)
  match getPlayersInGame s gameID with
  | [] => accept 1
  | [player] => accept (otherPlayer player)
  | _ :: _ :: _ => (s, false)

/-- One record per pointer: no two registered clients share an identity. -/
def DistinctIds (s : Server) : Prop :=
  (s.clients.map (fun client => client.id)).Nodup

/-- Exactly the two connections `a` and `b` are bound to the session `gameID`. -/
def BoundPair (s : Server) (gameID : String) (a b : Client) : Prop :=
  a ∈ s.clients ∧ b ∈ s.clients ∧ a.id ≠ b.id ∧ a.GameID = gameID ∧ b.GameID = gameID ∧
    ∀ c ∈ s.clients, c.GameID = gameID → c.id = a.id ∨ c.id = b.id

/-- The first connection of the default session, in slot 1. -/
def clientOne : Client :=
  { id := 1, GameID := "game-1", Player := 1, PlayAgain := false, Send := [] }

/-- The second connection of the default session, in slot 2. -/
def clientTwo : Client :=
  { id := 2, GameID := "game-1", Player := 2, PlayAgain := false, Send := [] }

/-- A server with one session, `game-1`, holding `game` and two bound connections. -/
def pairServer (game : Game) : Server :=
  { clients := [clientOne, clientTwo],
    games := setGame (fun _ => none) "game-1" (some game),
    gameLocks := fun k => k == "game-1" }

/-! ## Further vocabulary: traces, reachable servers, locking -/

/-- Plays a list of columns in order and records, after each call, the flag
`DropPiece` returned together with `IsOver` and `Winner`. -/
def dropTrace : Game → List Int → Option (List (Bool × Bool × Int))
  | _, [] => some []
  | g, column :: rest =>
    match DropPiece g column with
    | none => none
    | some (g', ok) =>
      match dropTrace g' rest with
      | none => none
      | some tail => some ((ok, g'.IsOver, g'.Winner) :: tail)

/-- The ranges of the fields of a `Game` as the protocol announces them:
cells in {0,1,2}, `current_turn` in {1,2}, `winner` in {0,1,2}, and a winner
only in a finished game. -/
def WellFormed (g : Game) : Prop :=
  (∀ (r : Fin 6) (c : Fin 7), g.Board r c = 0 ∨ g.Board r c = 1 ∨ g.Board r c = 2) ∧
    (g.CurrentTurn = 1 ∨ g.CurrentTurn = 2) ∧
    (g.Winner = 0 ∨ g.Winner = 1 ∨ g.Winner = 2) ∧
    (g.Winner ≠ 0 → g.IsOver = true)

instance (g : Game) : Decidable (WellFormed g) := by
  unfold WellFormed; infer_instance

/-- The states reachable by `DropPiece` calls, together with the player who
placed the last piece (`none` while the board is still empty). -/
inductive ReachableLast : Game → Option Int → Prop
  | init : ReachableLast NewGame none
  | applied {g g' : Game} {last : Option Int} (column : Int) :
      ReachableLast g last → DropPiece g column = some (g', true) →
      ReachableLast g' (some g.CurrentTurn)
  | rejected {g g' : Game} {last : Option Int} (column : Int) :
      ReachableLast g last → DropPiece g column = some (g', false) →
      ReachableLast g' last

/-- The number of cells of the grid that hold `p`. -/
def countCells (b : Board) (p : Int) : Nat :=
  (Finset.univ.filter (fun rc : Fin 6 × Fin 7 => b rc.1 rc.2 = p)).card

/-- Plays a list of columns and tracks the player who placed the last piece. -/
def playMovesLast : Game → Option Int → List Int → Option (Game × Option Int)
  | g, last, [] => some (g, last)
  | g, last, column :: rest =>
    match DropPiece g column with
    | none => none
    | some (g', true) => playMovesLast g' (some g.CurrentTurn) rest
    | some (g', false) => playMovesLast g' last rest

/-- The session a connection request names: the `game_id` parameter, or
`game-1` when it is empty. -/
def sessionOf (query : String) : String :=
  if query = "" then "game-1" else query

/-- The server before any connection. -/
def emptyServer : Server :=
  { clients := [], games := fun _ => none, gameLocks := fun _ => false }

/-- What the server reacts to, one handler call at a time. -/
inductive Event
  | connect (id : Nat) (query : String)
  | message (id : Nat) (msg : InMsg)
  | disconnect (id : Nat)

/-- One event: an accepted or refused connection of a freshly allocated client,
a message of a registered client, or its disconnect. -/
def stepServer (s : Server) : Event → Option Server
  | Event.connect id query =>
    if s.clients.all (fun client => !(client.id == id)) then
      some (handleConnections s id query).1
    else none
  | Event.message id msg => handleMessage s id msg
  | Event.disconnect id => handleClientDisconnect s id

/-- Runs a list of events in order. -/
def runServer : Server → List Event → Option Server
  | s, [] => some s
  | s, e :: rest =>
    match stepServer s e with
    | none => none
    | some s' => runServer s' rest

/-- The server states reachable from the empty server. -/
inductive ServerReachable : Server → Prop
  | init : ServerReachable emptyServer
  | step {s s' : Server} (e : Event) :
      ServerReachable s → stepServer s e = some s' → ServerReachable s'

/-- The slots of a session are one of: none, one of the two, or both. -/
def SlotsOK (s : Server) : Prop :=
  ∀ gameID : String, getPlayersInGame s gameID ∈ ([[], [1], [2], [1, 2], [2, 1]] : List (List Int))

/-- A function on client records that keeps identity, session and slot. -/
def KeepsSlot (f : Client → Client) : Prop :=
  ∀ c, (f c).id = c.id ∧ (f c).GameID = c.GameID ∧ (f c).Player = c.Player

/-- The server after `events`, from the empty server. -/
def afterEvents (events : List Event) : Server :=
  (runServer emptyServer events).getD emptyServer

/-- Two connections to the default session. -/
def lobby : List Event := [Event.connect 1 "", Event.connect 2 ""]

/-- Client 1 votes for a rematch, client 2 leaves without voting, client 3
takes the free slot, and client 1 makes a move in the restarted game. -/
def staleVote : List Event :=
  [Event.connect 1 "", Event.connect 2 "", Event.message 1 InMsg.play_again,
   Event.disconnect 2, Event.connect 3 "", Event.message 1 (InMsg.move 3)]

/-- Two sessions with one connection each. -/
def twoSessions : List Event := [Event.connect 1 "red", Event.connect 2 "blue"]

/-! ### Locking

Each handler is run once more statement by statement, this time with the
session mutexes it holds and a log of its accesses to the package-level
variables; each logged handler is proved to compute what the handler above
computes. -/

/-- An access to a package-level variable of server.go. A handler reading the
`GameID` or `Player` of its own client, fixed since registration, is not one. -/
inductive Access
  /-- Iterating over `clients` (membership, and the fields of the clients met). -/
  | clientsRead
  /-- `clients[client] = true`, `delete(clients, client)`, or writing the
  `PlayAgain` flag of a registered client. -/
  | clientsWrite
  /-- The lookup `games[gameID]`, or reading a field of the `Game`. -/
  | gameRead
  /-- Writing a field of the `Game` that `games[gameID]` points to. -/
  | gameWrite
  /-- The assignment `games[gameID] = ...` or `delete(games, gameID)`. -/
  | gamesWrite
  /-- The lookup `gameLocks[gameID]`. -/
  | locksRead
  /-- The assignment `gameLocks[gameID] = lock` or `delete(gameLocks, gameID)`. -/
  | locksWrite
  deriving DecidableEq

/-- An access to the session's game state or to its bound connections. -/
def Access.isSession : Access → Bool
  | Access.clientsRead | Access.clientsWrite | Access.gameRead | Access.gameWrite
  | Access.gamesWrite => true
  | _ => false

/-- A mutation of one of the registry maps `games` and `gameLocks`. -/
def Access.isRegistryWrite : Access → Bool
  | Access.gamesWrite | Access.locksWrite => true
  | _ => false

/-- One logged access: the line of server.go whose statement makes it (for an
access made inside a called function, the line of the call in the handler),
the kind of access, and the session mutexes held at that moment. -/
structure Entry where
  line : Nat
  access : Access
  held : List String
  deriving DecidableEq

/-- A handler call in progress: the package-level variables, the session
mutexes the call holds, and the accesses it has made so far, oldest first. -/
structure Run where
  server : Server
  held : List String
  log : List Entry

/-- A handler call about to start: nothing held, nothing logged. -/
def Run.start (s : Server) : Run :=
  { server := s, held := [], log := [] }

/-- Records an access at `line`, with the mutexes held right now. -/
def Run.note (r : Run) (line : Nat) (a : Access) : Run :=
  { r with log := r.log ++ [Entry.mk line a r.held] }

/-- Go: `gameLock.Lock()`. -/
def Run.lock (r : Run) (gameID : String) : Run :=
  { r with held := gameID :: r.held }

/-- Go: `gameLock.Unlock()`, direct or deferred. -/
def Run.unlock (r : Run) (gameID : String) : Run :=
  { r with held := r.held.erase gameID }

/-- The package-level variables after the statement just logged. -/
def Run.update (r : Run) (s : Server) : Run :=
  { r with server := s }

/-- The channel send `client.Send <- msg` on the client with identity `id`. -/
def sendTo (s : Server) (id : Nat) (msg : OutMsg) : Server :=
  { s with clients := s.clients.map (fun client =>
      if client.id = id then enqueue msg client else client) }

/-- Go: `getGameLock(gameID)`, called at `line`: the lookup in `gameLocks`, and
the insertion when the lookup misses. -/
def getGameLockRun (r : Run) (line : Nat) (gameID : String) : Run :=
  let r := r.note line Access.locksRead
  if r.server.gameLocks gameID then r
  else (r.note line Access.locksWrite).update (getGameLock r.server gameID)

/-- Go: `broadcastGameState(gameID)`, called at `line`: `games[gameID]` and
`ToJSON`, then the loop over `clients`. -/
def broadcastGameStateRun (r : Run) (line : Nat) (gameID : String) : Run :=
  let r := r.note line Access.gameRead
  let r := r.note line Access.clientsRead
  r.update (broadcastGameState r.server gameID)

/-- Go: `resetGame(gameID)`, called at `line`: the assignment to
`games[gameID]`, the loop that clears `PlayAgain`, and the loop that sends
`reset` and calls `sendGameState`. -/
def resetGameRun (r : Run) (line : Nat) (gameID : String) : Run :=
  let r := r.note line Access.gamesWrite
  let r := r.note line Access.clientsRead
  let r := r.note line Access.clientsWrite
  let r := r.note line Access.clientsRead
  let r := r.note line Access.gameRead
  r.update (resetGame r.server gameID)

/-- Go: `handleConnections`, lines 61 to 93, statement by statement. -/
def handleConnectionsRun (r : Run) (id : Nat) (query : String) : Run × Bool :=
  let gameID := sessionOf query
  let r := getGameLockRun r 61 gameID
  let r := r.lock gameID
  let r := r.note 64 Access.clientsRead
  let accept (player : Int) : Run × Bool :=
    let client : Client :=
      { id := id, GameID := gameID, Player := player, PlayAgain := false, Send := [] }
    let r := (r.note 76 Access.clientsWrite).update
      { r.server with clients := r.server.clients ++ [client] }
    let r := r.note 78 Access.gameRead
    let r := match r.server.games gameID with
      | some _ => r
      | none => (r.note 79 Access.gamesWrite).update
          { r.server with games := setGame r.server.games gameID (some NewGame) }
    let r := r.unlock gameID
    let r := r.update (sendTo r.server id (OutMsg.init player))
    let r := r.note 93 Access.gameRead
    let r := r.update (sendTo r.server id (OutMsg.game_state (r.server.games gameID)))
    (r, true)
  match getPlayersInGame r.server gameID with
  | [] => accept 1
  | [player] => accept (otherPlayer player)
  | _ :: _ :: _ => (r.unlock gameID, false)

/-- Go: `handleMessage`, statement by statement. -/
def handleMessageRun (r : Run) (id : Nat) (msg : InMsg) : Option Run :=
  match clientById r.server id with
  | none => none
  | some client =>
    let gameID := client.GameID
    let r := getGameLockRun r 114 gameID
    let r := r.lock gameID
    let r := r.note 118 Access.gameRead
    let game := r.server.games gameID
    match msg with
    | InMsg.move column =>
      match game with
      | none => none
      | some game =>
        let r := r.note 124 Access.gameRead
        if game.CurrentTurn ≠ client.Player ∨ game.IsOver = true then
          some (r.unlock gameID)
        else
          match DropPiece game column with
          | none => none
          | some (game', success) =>
            let r := r.note 128 Access.gameRead
            let r := if success then r.note 128 Access.gameWrite else r
            let r := r.update { r.server with games := setGame r.server.games gameID (some game') }
            if success then some ((broadcastGameStateRun r 130 gameID).unlock gameID)
            else some (r.unlock gameID)
    | InMsg.play_again =>
      let r := (r.note 133 Access.clientsWrite).update (markPlayAgain r.server id)
      let r := r.note 134 Access.clientsRead
      if allPlayersReady r.server gameID then some ((resetGameRun r 135 gameID).unlock gameID)
      else some (r.unlock gameID)
    | InMsg.other => some (r.unlock gameID)

/-- Go: `handleClientDisconnect`, statement by statement. -/
def handleClientDisconnectRun (r : Run) (id : Nat) : Option Run :=
  match clientById r.server id with
  | none => none
  | some client =>
    let r := (r.note 187 Access.clientsWrite).update
      { r.server with clients := r.server.clients.filter (fun c => !(c.id == id)) }
    let gameID := client.GameID
    let r := getGameLockRun r 191 gameID
    let r := r.lock gameID
    let r := r.note 195 Access.gameRead
    let game := r.server.games gameID
    let r := r.note 197 Access.clientsRead
    match getClientsInGame r.server gameID with
    | [] =>
      let r := (r.note 200 Access.gamesWrite).update
        { r.server with games := setGame r.server.games gameID none }
      let r := (r.note 201 Access.locksWrite).update
        { r.server with gameLocks := fun k => if k = gameID then false else r.server.gameLocks k }
      some (r.unlock gameID)
    | [remainingClient] =>
      match game with
      | none => none
      | some game =>
        let game := { game with
          IsOver := false, Winner := 0, CurrentTurn := remainingClient.Player,
          Board := emptyBoard }
        let r := (r.note 204 Access.gameWrite).update
          { r.server with games := setGame r.server.games gameID (some game) }
        some ((broadcastGameStateRun r 208 gameID).unlock gameID)
    | _ :: _ :: _ =>
      match game with
      | none => none
      | some game =>
        let r := r.note 210 Access.gameRead
        if game.CurrentTurn = client.Player then
          let game := { game with CurrentTurn := otherPlayer client.Player }
          let r := (r.note 211 Access.gameWrite).update
            { r.server with games := setGame r.server.games gameID (some game) }
          some ((broadcastGameStateRun r 212 gameID).unlock gameID)
        else
          some (r.unlock gameID)

/-- What the code has for one access of a handler call on session `gameID`:
a session access holds that session's mutex, wherever it is made except at line
93 (`sendGameState` after `Unlock`) and line 187 (`delete(clients, client)`
before `Lock`), of which nothing is said; and a mutation of `gameLocks` either
holds that session's mutex or is the insertion of `getGameLock` (called at lines
61, 114 and 191), made with no mutex held. -/
def Entry.asDesigned (gameID : String) (e : Entry) : Prop :=
  (e.access.isSession = true → e.line ≠ 93 → e.line ≠ 187 → gameID ∈ e.held) ∧
    (e.access = Access.locksWrite →
      gameID ∈ e.held ∨ ((e.line = 61 ∨ e.line = 114 ∨ e.line = 191) ∧ e.held = []))

/-- Where a logged access of a handler call on session `gameID` can stand:
inside the critical section, in `getGameLock` (called at `lockLine`) before it,
or at one of the two statements outside it. -/
def EntryShape (gameID : String) (lockLine : Nat) (e : Entry) : Prop :=
  e.held = [gameID] ∨
    (e.held = [] ∧ e.line = lockLine ∧
      (e.access = Access.locksRead ∨ e.access = Access.locksWrite)) ∨
    (e.held = [] ∧ e.line = 93 ∧ e.access = Access.gameRead) ∨
    (e.held = [] ∧ e.line = 187 ∧ e.access = Access.clientsWrite)

/-- The end of `diagonalGame`: the final state and the player who moved last. -/
def diagonalEnd : Game × Option Int :=
  (playMovesLast NewGame none diagonalGame).getD (NewGame, none)

/-! ## The board engine: lemmas -/

theorem cellAt_eq_some_iff (b : Board) (row col v : Int) :
    cellAt b row col = some v ↔
      ∃ h : 0 ≤ row ∧ row ≤ 5 ∧ 0 ≤ col ∧ col ≤ 6,
        b ⟨row.toNat, by omega⟩ ⟨col.toNat, by omega⟩ = v := by
  unfold cellAt
  split
  · rename_i h
    simp [h]
  · rename_i h
    simp [h]

theorem cellAt_coe (b : Board) (r : Fin 6) (c : Fin 7) :
    cellAt b (r.val : Int) (c.val : Int) = some (b r c) := by
  have hr := r.isLt
  have hc := c.isLt
  rw [cellAt_eq_some_iff]
  refine ⟨by omega, ?_⟩
  simp

theorem countLoop_continue (b : Board) (player dr dc : Int) (fuel : Nat) (row col count : Int)
    (h : cellAt b (row + dr) (col + dc) = some player) :
    countLoop b player dr dc (fuel + 1) row col count
      = countLoop b player dr dc fuel (row + dr) (col + dc) (count + 1) := by
  obtain ⟨hb, hv⟩ := (cellAt_eq_some_iff _ _ _ _).1 h
  rw [countLoop]
  have h1 : ¬ (row + dr < 0 ∨ row + dr > 5 ∨ col + dc < 0 ∨ col + dc > 6) := by omega
  simp only [h1, ↓reduceDIte, hv, ne_eq, not_true_eq_false, ↓reduceIte]

theorem countLoop_break (b : Board) (player dr dc : Int) (fuel : Nat) (row col count : Int)
    (h : cellAt b (row + dr) (col + dc) ≠ some player) :
    countLoop b player dr dc (fuel + 1) row col count = some count := by
  rw [countLoop]
  by_cases h1 : row + dr < 0 ∨ row + dr > 5 ∨ col + dc < 0 ∨ col + dc > 6
  · simp only [h1, ↓reduceDIte]
  · have hv : b ⟨(row + dr).toNat, by omega⟩ ⟨(col + dc).toNat, by omega⟩ ≠ player := by
      intro hv
      exact h ((cellAt_eq_some_iff _ _ _ _).2 ⟨by omega, hv⟩)
    simp only [h1, ↓reduceDIte, ne_eq, hv, not_false_eq_true, ↓reduceIte]

theorem countLoop_ge (b : Board) (player dr dc : Int) :
    ∀ (fuel : Nat) (row col count n : Int),
      countLoop b player dr dc fuel row col count = some n → count ≤ n := by
  intro fuel
  induction fuel with
  | zero => intro row col count n h; simp [countLoop] at h
  | succ f ih =>
    intro row col count n h
    by_cases hc : cellAt b (row + dr) (col + dc) = some player
    · rw [countLoop_continue _ _ _ _ _ _ _ _ hc] at h
      have := ih _ _ _ _ h
      omega
    · rw [countLoop_break _ _ _ _ _ _ _ _ hc] at h
      simp at h; omega

/-- Completeness of the walk: `m` matching cells ahead are all counted. -/
theorem countLoop_complete (b : Board) (player dr dc : Int) :
    ∀ (fuel : Nat) (m : Nat) (row col count n : Int),
      (∀ k : Int, 1 ≤ k → k ≤ m → cellAt b (row + k * dr) (col + k * dc) = some player) →
      countLoop b player dr dc fuel row col count = some n → count + m ≤ n := by
  intro fuel
  induction fuel with
  | zero => intro m row col count n _ h; simp [countLoop] at h
  | succ f ih =>
    intro m row col count n hcells h
    cases m with
    | zero =>
      have := countLoop_ge _ _ _ _ _ _ _ _ _ h
      simpa using this
    | succ m =>
      have h1 : cellAt b (row + dr) (col + dc) = some player := by
        have := hcells 1 (le_refl 1) (by push_cast; omega)
        simpa using this
      rw [countLoop_continue _ _ _ _ _ _ _ _ h1] at h
      have h2 : ∀ k : Int, 1 ≤ k → k ≤ m →
          cellAt b (row + dr + k * dr) (col + dc + k * dc) = some player := by
        intro k hk1 hk2
        have := hcells (k + 1) (by omega) (by push_cast; omega)
        have e1 : row + (k + 1) * dr = row + dr + k * dr := by ring
        have e2 : col + (k + 1) * dc = col + dc + k * dc := by ring
        rw [e1, e2] at this
        exact this
      have := ih m _ _ _ _ h2 h
      push_cast
      omega

/-- Soundness of the walk: every counted cell lies on the grid and holds `player`. -/
theorem countLoop_sound (b : Board) (player dr dc : Int) :
    ∀ (fuel : Nat) (row col count n : Int),
      countLoop b player dr dc fuel row col count = some n →
      ∀ k : Int, 1 ≤ k → k ≤ n - count →
        cellAt b (row + k * dr) (col + k * dc) = some player := by
  intro fuel
  induction fuel with
  | zero => intro row col count n h; simp [countLoop] at h
  | succ f ih =>
    intro row col count n h k hk1 hk2
    by_cases hc : cellAt b (row + dr) (col + dc) = some player
    · rw [countLoop_continue _ _ _ _ _ _ _ _ hc] at h
      by_cases hk : k = 1
      · subst hk; simpa using hc
      · have := ih _ _ _ _ h (k - 1) (by omega) (by omega)
        have e1 : row + dr + (k - 1) * dr = row + k * dr := by ring
        have e2 : col + dc + (k - 1) * dc = col + k * dc := by ring
        rw [e1, e2] at this
        exact this
    · rw [countLoop_break _ _ _ _ _ _ _ _ hc] at h
      simp at h; omega

/-- A walk that exhausts its fuel has seen `fuel` matching cells. -/
theorem countLoop_none (b : Board) (player dr dc : Int) :
    ∀ (fuel : Nat) (row col count : Int),
      countLoop b player dr dc fuel row col count = none →
      ∀ k : Int, 1 ≤ k → k ≤ fuel →
        cellAt b (row + k * dr) (col + k * dc) = some player := by
  intro fuel
  induction fuel with
  | zero => intro row col count _ k hk1 hk2; simp at hk2; omega
  | succ f ih =>
    intro row col count h k hk1 hk2
    by_cases hc : cellAt b (row + dr) (col + dc) = some player
    · rw [countLoop_continue _ _ _ _ _ _ _ _ hc] at h
      by_cases hk : k = 1
      · subst hk; simpa using hc
      · have := ih _ _ _ h (k - 1) (by omega) (by push_cast at hk2; omega)
        have e1 : row + dr + (k - 1) * dr = row + k * dr := by ring
        have e2 : col + dc + (k - 1) * dc = col + k * dc := by ring
        rw [e1, e2] at this
        exact this
    · rw [countLoop_break _ _ _ _ _ _ _ _ hc] at h
      simp at h

theorem cellAt_bounds {b : Board} {row col v : Int} (h : cellAt b row col = some v) :
    0 ≤ row ∧ row ≤ 5 ∧ 0 ≤ col ∧ col ≤ 6 :=
  ((cellAt_eq_some_iff _ _ _ _).1 h).1

/-- With a non-zero step the walk leaves the grid within `loopFuel` iterations. -/
theorem countLoop_returns (b : Board) (player dr dc row col count : Int)
    (hd : dr ≠ 0 ∨ dc ≠ 0) :
    ∃ n, countLoop b player dr dc loopFuel row col count = some n := by
  cases hres : countLoop b player dr dc loopFuel row col count with
  | some n => exact ⟨n, rfl⟩
  | none =>
    exfalso
    have h1 := cellAt_bounds (countLoop_none _ _ _ _ _ _ _ _ hres 1 (by omega) (by simp [loopFuel]))
    have h8 := cellAt_bounds (countLoop_none _ _ _ _ _ _ _ _ hres 8 (by omega) (by simp [loopFuel]))
    omega

theorem countLoop_fuel_succ (b : Board) (player dr dc : Int) :
    ∀ (fuel : Nat) (row col count n : Int),
      countLoop b player dr dc fuel row col count = some n →
      countLoop b player dr dc (fuel + 1) row col count = some n := by
  intro fuel
  induction fuel with
  | zero => intro row col count n h; simp [countLoop] at h
  | succ f ih =>
    intro row col count n h
    by_cases hc : cellAt b (row + dr) (col + dc) = some player
    · rw [countLoop_continue _ _ _ _ _ _ _ _ hc] at h ⊢
      exact ih _ _ _ _ h
    · rw [countLoop_break _ _ _ _ _ _ _ _ hc] at h ⊢
      exact h

theorem countLoop_fuel_mono (b : Board) (player dr dc : Int) (f f' : Nat) (hf : f ≤ f')
    (row col count n : Int) (h : countLoop b player dr dc f row col count = some n) :
    countLoop b player dr dc f' row col count = some n := by
  induction hf with
  | refl => exact h
  | step _ ih => exact countLoop_fuel_succ _ _ _ _ _ _ _ _ _ ih

/-- The loop with a zero step never breaks once it has continued. -/
theorem countLoop_zero_step (b : Board) (player : Int) :
    ∀ (fuel : Nat) (row col count : Int), cellAt b row col = some player →
      countLoop b player 0 0 fuel row col count = none := by
  intro fuel
  induction fuel with
  | zero => intro row col count _; simp [countLoop]
  | succ f ih =>
    intro row col count h
    have h' : cellAt b (row + 0) (col + 0) = some player := by simpa using h
    rw [countLoop_continue _ _ _ _ _ _ _ _ h']
    exact ih _ _ _ h'

/-- Adequacy of the fuel: whenever the loop breaks at all, it has broken within
`loopFuel` iterations, with the same count. -/
theorem countLoop_fuel_enough (b : Board) (player dr dc : Int) (fuel : Nat)
    (row col count n : Int) (h : countLoop b player dr dc fuel row col count = some n) :
    countLoop b player dr dc loopFuel row col count = some n := by
  by_cases hd : dr ≠ 0 ∨ dc ≠ 0
  · obtain ⟨n', hn'⟩ := countLoop_returns b player dr dc row col count hd
    rcases Nat.le_total fuel loopFuel with hle | hle
    · exact countLoop_fuel_mono _ _ _ _ _ _ hle _ _ _ _ h
    · have := countLoop_fuel_mono _ _ _ _ _ _ hle _ _ _ _ hn'
      rw [h] at this
      rw [hn', this]
  · have hdr : dr = 0 := by omega
    have hdc : dc = 0 := by omega
    subst hdr; subst hdc
    cases fuel with
    | zero => simp [countLoop] at h
    | succ f =>
      by_cases hc : cellAt b (row + 0) (col + 0) = some player
      · rw [countLoop_continue _ _ _ _ _ _ _ _ hc, countLoop_zero_step _ _ _ _ _ _ hc] at h
        simp at h
      · rw [countLoop_break _ _ _ _ _ _ _ _ hc] at h
        rw [loopFuel, countLoop_break _ _ _ _ _ _ _ _ hc]
        exact h

theorem countDirection_returns (g : Game) (row col dr dc : Int) (hd : dr ≠ 0 ∨ dc ≠ 0) :
    ∃ n, countDirection g row col dr dc = some n :=
  countLoop_returns _ _ _ _ _ _ _ hd

theorem directions_nonzero {d : Int × Int} (hd : d ∈ directions) : d.1 ≠ 0 ∨ d.2 ≠ 0 := by
  simp only [directions, List.mem_cons, List.mem_singleton, List.mem_nil_iff, or_false] at hd
  rcases hd with h | h | h | h <;> subst h <;> simp

/-- What the loop over the axes computes. -/
theorem checkWinLoop_spec (g : Game) (row col : Int) :
    ∀ (ds : List (Int × Int)) (g' : Game), checkWinLoop g row col ds = some g' →
      ((∃ d ∈ ds, winsAt g row col d) ∧
          g' = { g with IsOver := true, Winner := g.CurrentTurn }) ∨
      ((∀ d ∈ ds, ¬ winsAt g row col d) ∧
          g' = if isBoardFull g then { g with IsOver := true } else g) := by
  intro ds
  induction ds with
  | nil =>
    intro g' h
    right
    simp only [checkWinLoop, Option.some.injEq] at h
    exact ⟨by simp, h.symm⟩
  | cons d rest ih =>
    intro g' h
    simp only [checkWinLoop] at h
    cases ha : countDirection g row col d.1 d.2 with
    | none => simp [ha] at h
    | some a =>
      cases hb : countDirection g row col (-d.1) (-d.2) with
      | none => simp [ha, hb] at h
      | some b =>
        simp only [ha, hb] at h
        by_cases hc : 1 + a + b ≥ 4
        · left
          simp only [hc, ↓reduceIte, Option.some.injEq] at h
          exact ⟨⟨d, List.mem_cons_self _ _, a, b, ha, hb, hc⟩, h.symm⟩
        · simp only [hc, ↓reduceIte] at h
          rcases ih g' h with ⟨⟨d', hd', hw⟩, hg⟩ | ⟨hno, hg⟩
          · left; exact ⟨⟨d', List.mem_cons_of_mem _ hd', hw⟩, hg⟩
          · right
            refine ⟨?_, hg⟩
            intro d' hd'
            rcases List.mem_cons.1 hd' with rfl | hd'
            · rintro ⟨a', b', ha', hb', hc'⟩
              rw [ha] at ha'; rw [hb] at hb'
              simp only [Option.some.injEq] at ha' hb'
              subst ha'; subst hb'
              exact hc hc'
            · exact hno d' hd'

/-- The loop over the axes returns when every axis is a non-zero step. -/
theorem checkWinLoop_returns (g : Game) (row col : Int) :
    ∀ (ds : List (Int × Int)), (∀ d ∈ ds, d.1 ≠ 0 ∨ d.2 ≠ 0) →
      ∃ g', checkWinLoop g row col ds = some g' := by
  intro ds
  induction ds with
  | nil => intro _; exact ⟨_, rfl⟩
  | cons d rest ih =>
    intro hds
    have hd := hds d (List.mem_cons_self _ _)
    obtain ⟨a, ha⟩ := countDirection_returns g row col d.1 d.2 hd
    obtain ⟨b, hb⟩ := countDirection_returns g row col (-d.1) (-d.2) (by omega)
    simp only [checkWinLoop, ha, hb]
    by_cases hc : 1 + a + b ≥ 4
    · simp only [hc, ↓reduceIte]; exact ⟨_, rfl⟩
    · simp only [hc, ↓reduceIte]
      exact ih (fun d' hd' => hds d' (List.mem_cons_of_mem _ hd'))

theorem checkWin_returns (g : Game) (row col : Int) : ∃ g', checkWin g row col = some g' :=
  checkWinLoop_returns g row col directions (fun _ hd => directions_nonzero hd)

theorem checkWin_spec (g : Game) (row col : Int) (g' : Game) (h : checkWin g row col = some g') :
    ((∃ d ∈ directions, winsAt g row col d) ∧
        g' = { g with IsOver := true, Winner := g.CurrentTurn }) ∨
    ((∀ d ∈ directions, ¬ winsAt g row col d) ∧
        g' = if isBoardFull g then { g with IsOver := true } else g) :=
  checkWinLoop_spec g row col directions g' h

theorem checkWin_Board (g : Game) (row col : Int) (g' : Game) (h : checkWin g row col = some g') :
    g'.Board = g.Board ∧ g'.CurrentTurn = g.CurrentTurn := by
  rcases checkWin_spec g row col g' h with ⟨_, hg⟩ | ⟨_, hg⟩
  · subst hg; exact ⟨rfl, rfl⟩
  · subst hg; split <;> exact ⟨rfl, rfl⟩

theorem toggleTurn_Board (g : Game) :
    (toggleTurn g).Board = g.Board ∧ (toggleTurn g).IsOver = g.IsOver ∧
      (toggleTurn g).Winner = g.Winner := by
  unfold toggleTurn; split <;> exact ⟨rfl, rfl, rfl⟩

/-- What the row scan of `DropPiece` does when it places a piece. -/
theorem dropLoop_true (g : Game) (column : Fin 7) :
    ∀ (n : Nat) (hn : n ≤ 6) (g' : Game), dropLoop g column n hn = some (g', true) →
      ∃ r : Fin 6, r.val < n ∧ g.Board r column = 0 ∧
        (∀ r' : Fin 6, r < r' → r'.val < n → g.Board r' column ≠ 0) ∧
        ∃ g2, checkWin { g with Board := setCell g.Board r column g.CurrentTurn }
            (r.val : Int) (column.val : Int) = some g2 ∧ g' = toggleTurn g2 := by
  intro n
  induction n with
  | zero => intro hn g' h; simp [dropLoop] at h
  | succ n ih =>
    intro hn g' h
    rw [dropLoop] at h
    by_cases hz : g.Board ⟨n, by omega⟩ column = 0
    · simp only [hz, ↓reduceIte] at h
      refine ⟨⟨n, by omega⟩, by simp, hz, ?_, ?_⟩
      · intro r' h1 h2
        exfalso
        have : n < r'.val := h1
        omega
      · revert h
        cases hcw : checkWin { g with Board := setCell g.Board ⟨n, by omega⟩ column g.CurrentTurn }
            (n : Int) (column.val : Int) with
        | none => intro h; simp at h
        | some g2 =>
          intro h
          simp only [Option.some.injEq, Prod.mk.injEq, and_true] at h
          exact ⟨g2, rfl, h.symm⟩
    · simp only [hz, ↓reduceIte] at h
      obtain ⟨r, hr, hz', habove, hrest⟩ := ih (by omega) g' h
      refine ⟨r, by omega, hz', ?_, hrest⟩
      intro r' h1 h2
      by_cases hr' : r'.val < n
      · exact habove r' h1 hr'
      · have : r' = ⟨n, by omega⟩ := by
          apply Fin.ext; simp; omega
        rw [this]; exact hz

/-- What the row scan of `DropPiece` does when it finds no empty cell. -/
theorem dropLoop_false (g : Game) (column : Fin 7) :
    ∀ (n : Nat) (hn : n ≤ 6) (g' : Game), dropLoop g column n hn = some (g', false) →
      g' = g ∧ ∀ r : Fin 6, r.val < n → g.Board r column ≠ 0 := by
  intro n
  induction n with
  | zero =>
    intro hn g' h
    simp only [dropLoop, Option.some.injEq, Prod.mk.injEq, and_true] at h
    exact ⟨h.symm, fun r hr => by omega⟩
  | succ n ih =>
    intro hn g' h
    rw [dropLoop] at h
    by_cases hz : g.Board ⟨n, by omega⟩ column = 0
    · simp only [hz, ↓reduceIte] at h
      revert h
      cases checkWin { g with Board := setCell g.Board ⟨n, by omega⟩ column g.CurrentTurn }
            (n : Int) (column.val : Int) with
      | none => intro h; simp at h
      | some g2 => intro h; simp at h
    · simp only [hz, ↓reduceIte] at h
      obtain ⟨hg, hall⟩ := ih (by omega) g' h
      refine ⟨hg, ?_⟩
      intro r hr
      by_cases hr' : r.val < n
      · exact hall r hr'
      · have : r = ⟨n, by omega⟩ := by
          apply Fin.ext; simp; omega
        rw [this]; exact hz

theorem dropLoop_returns (g : Game) (column : Fin 7) :
    ∀ (n : Nat) (hn : n ≤ 6), ∃ res, dropLoop g column n hn = some res := by
  intro n
  induction n with
  | zero => intro hn; exact ⟨_, rfl⟩
  | succ n ih =>
    intro hn
    rw [dropLoop]
    by_cases hz : g.Board ⟨n, by omega⟩ column = 0
    · simp only [hz, ↓reduceIte]
      obtain ⟨g2, hg2⟩ := checkWin_returns
        { g with Board := setCell g.Board ⟨n, by omega⟩ column g.CurrentTurn } (n : Int) (column.val : Int)
      rw [hg2]; exact ⟨_, rfl⟩
    · simp only [hz, ↓reduceIte]
      exact ih (by omega)

/-- A call of `DropPiece` returns: the walks of `checkWin` all leave the grid. -/
theorem DropPiece_returns (g : Game) (column : Int) : ∃ res, DropPiece g column = some res := by
  unfold DropPiece
  split
  · exact ⟨_, rfl⟩
  · exact dropLoop_returns _ _ _ _

/-- An applied drop, spelled out. -/
theorem DropPiece_true (g : Game) (column : Int) (g' : Game)
    (h : DropPiece g column = some (g', true)) :
    g.IsOver = false ∧ ∃ (r : Fin 6) (c : Fin 7), (c.val : Int) = column ∧ g.Board r c = 0 ∧
      (∀ r' : Fin 6, r < r' → g.Board r' c ≠ 0) ∧
      ∃ g2, checkWin { g with Board := setCell g.Board r c g.CurrentTurn }
          (r.val : Int) (c.val : Int) = some g2 ∧ g' = toggleTurn g2 := by
  unfold DropPiece at h
  split at h
  · simp at h
  · rename_i hguard
    obtain ⟨r, _, hz, habove, hrest⟩ := dropLoop_true _ _ _ _ _ h
    refine ⟨by simpa using (not_or.1 (not_or.1 hguard).2).2, r, ⟨column.toNat, by omega⟩, ?_, hz, ?_, hrest⟩
    · simp; omega
    · intro r' hr'
      exact habove r' hr' (by omega)

/-- A rejected drop, spelled out. -/
theorem DropPiece_false (g : Game) (column : Int) (g' : Game)
    (h : DropPiece g column = some (g', false)) :
    g' = g ∧ (column < 0 ∨ column > 6 ∨ g.IsOver = true ∨
      ∃ c : Fin 7, (c.val : Int) = column ∧ ∀ r : Fin 6, g.Board r c ≠ 0) := by
  unfold DropPiece at h
  split at h
  · rename_i hguard
    simp only [Option.some.injEq, Prod.mk.injEq, and_true] at h
    refine ⟨h.symm, ?_⟩
    rcases hguard with h1 | h1 | h1
    · exact Or.inl h1
    · exact Or.inr (Or.inl h1)
    · exact Or.inr (Or.inr (Or.inl h1))
  · rename_i hguard
    obtain ⟨hg, hall⟩ := dropLoop_false _ _ _ _ _ h
    refine ⟨hg, Or.inr (Or.inr (Or.inr ⟨⟨column.toNat, by omega⟩, ?_, ?_⟩))⟩
    · simp; omega
    · intro r; exact hall r r.isLt

theorem lineOfFour_iff (b : Board) (p row col dr dc : Int) :
    lineOfFour b p row col dr dc ↔
      ∀ k : Int, 0 ≤ k → k ≤ 3 → cellAt b (row + k * dr) (col + k * dc) = some p := by
  unfold lineOfFour
  constructor
  · intro h k h0 h3
    apply h
    have : k = 0 ∨ k = 1 ∨ k = 2 ∨ k = 3 := by omega
    simpa using this
  · intro h k hk
    simp only [List.mem_cons, List.mem_singleton, List.mem_nil_iff, or_false] at hk
    apply h <;> omega

theorem mem_rows {r : Int} (h0 : 0 ≤ r) (h5 : r ≤ 5) : r ∈ ([0, 1, 2, 3, 4, 5] : List Int) := by
  have : r = 0 ∨ r = 1 ∨ r = 2 ∨ r = 3 ∨ r = 4 ∨ r = 5 := by omega
  simpa using this

theorem mem_cols {c : Int} (h0 : 0 ≤ c) (h6 : c ≤ 6) :
    c ∈ ([0, 1, 2, 3, 4, 5, 6] : List Int) := by
  have : c = 0 ∨ c = 1 ∨ c = 2 ∨ c = 3 ∨ c = 4 ∨ c = 5 ∨ c = 6 := by omega
  simpa using this

theorem cellAt_setCell (b : Board) (r : Fin 6) (c : Fin 7) (v row col : Int) :
    cellAt (setCell b r c v) row col
      = if row = (r.val : Int) ∧ col = (c.val : Int) then some v else cellAt b row col := by
  unfold cellAt
  by_cases hb : 0 ≤ row ∧ row ≤ 5 ∧ 0 ≤ col ∧ col ≤ 6
  · simp only [hb, and_self, ↓reduceDIte, setCell]
    have hr : (⟨row.toNat, by omega⟩ : Fin 6) = r ↔ row = (r.val : Int) := by
      rw [Fin.ext_iff]; simp; omega
    have hc : (⟨col.toNat, by omega⟩ : Fin 7) = c ↔ col = (c.val : Int) := by
      rw [Fin.ext_iff]; simp; omega
    simp only [hr, hc]
    split <;> rfl
  · have hr := r.isLt
    have hc := c.isLt
    have : ¬ (row = (r.val : Int) ∧ col = (c.val : Int)) := by omega
    simp only [hb, ↓reduceDIte, this, ↓reduceIte]

/-- A line of four of the new board that was not one of the old board passes
through the cell just written, and holds the value written there. -/
theorem line_through_new_cell (b : Board) (r : Fin 6) (c : Fin 7) (v p row col dr dc : Int)
    (hnew : lineOfFour (setCell b r c v) p row col dr dc)
    (hold : ¬ lineOfFour b p row col dr dc) :
    p = v ∧ ∃ j : Int, 0 ≤ j ∧ j ≤ 3 ∧ row + j * dr = (r.val : Int) ∧ col + j * dc = (c.val : Int) := by
  rw [lineOfFour_iff] at hnew hold
  by_contra hcon
  apply hold
  intro k h0 h3
  have hk := hnew k h0 h3
  rw [cellAt_setCell] at hk
  split at hk
  · rename_i heq
    exfalso
    apply hcon
    simp only [Option.some.injEq] at hk
    exact ⟨hk.symm, k, h0, h3, heq.1, heq.2⟩
  · exact hk

/-- Completeness of the axis test: a line of four of the mover's pieces through
`(row, col)` makes `count >= 4` on that axis. -/
theorem winsAt_of_line (g : Game) (row col r0 c0 : Int) (d : Int × Int)
    (hd : d.1 ≠ 0 ∨ d.2 ≠ 0) (j : Int) (hj0 : 0 ≤ j) (hj3 : j ≤ 3)
    (hr : r0 + j * d.1 = row) (hc : c0 + j * d.2 = col)
    (hline : lineOfFour g.Board g.CurrentTurn r0 c0 d.1 d.2) :
    winsAt g row col d := by
  rw [lineOfFour_iff] at hline
  obtain ⟨a, ha⟩ := countDirection_returns g row col d.1 d.2 hd
  obtain ⟨b, hb⟩ := countDirection_returns g row col (-d.1) (-d.2) (by omega)
  refine ⟨a, b, ha, hb, ?_⟩
  have hfwd : (0 : Int) + ((3 - j).toNat : Nat) ≤ a := by
    apply countLoop_complete _ _ _ _ _ _ _ _ _ _ _ ha
    intro k hk1 hk2
    have := hline (j + k) (by omega) (by omega)
    have e1 : r0 + (j + k) * d.1 = row + k * d.1 := by rw [← hr]; ring
    have e2 : c0 + (j + k) * d.2 = col + k * d.2 := by rw [← hc]; ring
    rw [e1, e2] at this
    exact this
  have hbwd : (0 : Int) + (j.toNat : Nat) ≤ b := by
    apply countLoop_complete _ _ _ _ _ _ _ _ _ _ _ hb
    intro k hk1 hk2
    have := hline (j - k) (by omega) (by omega)
    have e1 : r0 + (j - k) * d.1 = row + k * -d.1 := by rw [← hr]; ring
    have e2 : c0 + (j - k) * d.2 = col + k * -d.2 := by rw [← hc]; ring
    rw [e1, e2] at this
    exact this
  omega

/-- Soundness of the axis test: `count >= 4` on an axis through a cell holding
the mover's piece exhibits a line of four of the mover. -/
theorem hasFour_of_winsAt (g : Game) (row col : Int) (d : Int × Int) (hd : d ∈ directions)
    (hcell : cellAt g.Board row col = some g.CurrentTurn) (hw : winsAt g row col d) :
    hasFour g.Board g.CurrentTurn := by
  obtain ⟨a, b, ha, hb, hab⟩ := hw
  have hfwd := countLoop_sound _ _ _ _ _ _ _ _ _ ha
  have hbwd := countLoop_sound _ _ _ _ _ _ _ _ _ hb
  have ha0 := countLoop_ge _ _ _ _ _ _ _ _ _ ha
  have hb0 := countLoop_ge _ _ _ _ _ _ _ _ _ hb
  have hline : ∀ k : Int, 0 ≤ k → k ≤ 3 →
      cellAt g.Board (row - min b 3 * d.1 + k * d.1) (col - min b 3 * d.2 + k * d.2)
        = some g.CurrentTurn := by
    intro k h0 h3
    rcases lt_trichotomy k (min b 3) with hlt | heq | hgt
    · have := hbwd (min b 3 - k) (by omega) (by omega)
      have e1 : row + (min b 3 - k) * -d.1 = row - min b 3 * d.1 + k * d.1 := by ring
      have e2 : col + (min b 3 - k) * -d.2 = col - min b 3 * d.2 + k * d.2 := by ring
      rw [e1, e2] at this
      exact this
    · have e1 : row - min b 3 * d.1 + k * d.1 = row := by rw [heq]; ring
      have e2 : col - min b 3 * d.2 + k * d.2 = col := by rw [heq]; ring
      rw [e1, e2]; exact hcell
    · have := hfwd (k - min b 3) (by omega) (by omega)
      have e1 : row + (k - min b 3) * d.1 = row - min b 3 * d.1 + k * d.1 := by ring
      have e2 : col + (k - min b 3) * d.2 = col - min b 3 * d.2 + k * d.2 := by ring
      rw [e1, e2] at this
      exact this
  have hstart := cellAt_bounds (hline 0 (le_refl 0) (by omega))
  simp only [zero_mul, add_zero] at hstart
  exact ⟨_, mem_rows hstart.1 hstart.2.1, _, mem_cols hstart.2.2.1 hstart.2.2.2, d, hd,
    (lineOfFour_iff _ _ _ _ _ _).2 hline⟩

theorem not_hasFour_empty (p : Int) (hp : p ≠ 0) : ¬ hasFour emptyBoard p := by
  rintro ⟨row, _, col, _, d, _, hline⟩
  have h0 := (lineOfFour_iff _ _ _ _ _ _).1 hline 0 (le_refl 0) (by omega)
  obtain ⟨_, hv⟩ := (cellAt_eq_some_iff _ _ _ _).1 h0
  exact hp (by simpa [emptyBoard] using hv.symm)

/-- The state right after an applied drop, in terms of the state before. -/
theorem DropPiece_true_state (g : Game) (column : Int) (g' : Game)
    (h : DropPiece g column = some (g', true)) :
    g.IsOver = false ∧ ∃ (r : Fin 6) (c : Fin 7), (c.val : Int) = column ∧ g.Board r c = 0 ∧
      (∀ r' : Fin 6, r < r' → g.Board r' c ≠ 0) ∧
      g'.Board = setCell g.Board r c g.CurrentTurn ∧
      g'.CurrentTurn = (if g.CurrentTurn = 1 then 2 else 1) ∧
      (((∃ d ∈ directions, winsAt { g with Board := setCell g.Board r c g.CurrentTurn }
            (r.val : Int) (c.val : Int) d) ∧ g'.IsOver = true ∧ g'.Winner = g.CurrentTurn) ∨
       ((∀ d ∈ directions, ¬ winsAt { g with Board := setCell g.Board r c g.CurrentTurn }
            (r.val : Int) (c.val : Int) d) ∧ g'.Winner = g.Winner ∧
          g'.IsOver = isBoardFull { g with Board := setCell g.Board r c g.CurrentTurn })) := by
  obtain ⟨hover, r, c, hcol, hz, habove, g2, hcw, hg'⟩ := DropPiece_true g column g' h
  refine ⟨hover, r, c, hcol, hz, habove, ?_⟩
  have htog := toggleTurn_Board g2
  have hturn : (toggleTurn g2).CurrentTurn = (if g2.CurrentTurn = 1 then 2 else 1) := by
    unfold toggleTurn; split <;> simp [*]
  have hkeep := checkWin_Board _ _ _ _ hcw
  rw [hg', htog.1, htog.2.1, htog.2.2, hturn, hkeep.1, hkeep.2]
  refine ⟨rfl, rfl, ?_⟩
  rcases checkWin_spec _ _ _ _ hcw with ⟨hwin, hg2⟩ | ⟨hno, hg2⟩
  · left
    rw [hg2]
    exact ⟨hwin, rfl, rfl⟩
  · right
    refine ⟨hno, ?_⟩
    rw [hg2]
    cases hf : isBoardFull { g with Board := setCell g.Board r c g.CurrentTurn }
    · exact ⟨rfl, hover⟩
    · exact ⟨rfl, rfl⟩

theorem reachable_winRecorded (g : Game) (h : Reachable g) : WinRecorded g := by
  induction h with
  | init =>
    intro p hp hfour
    exact absurd hfour (not_hasFour_empty p (by omega))
  | @step g g' b column _ hdrop ih =>
    cases b with
    | false =>
      rw [(DropPiece_false g column g' hdrop).1]
      exact ih
    | true =>
      obtain ⟨hover, r, c, _, _, _, hboard, _, hres⟩ := DropPiece_true_state g column g' hdrop
      intro p hp hfour
      obtain ⟨row, hrow, col, hcol, d, hd, hline⟩ := hfour
      rw [hboard] at hline
      have hold : ¬ lineOfFour g.Board p row col d.1 d.2 := by
        intro hl
        have := (ih p hp ⟨row, hrow, col, hcol, d, hd, hl⟩).1
        rw [hover] at this
        exact Bool.false_ne_true this
      obtain ⟨hpv, j, hj0, hj3, hjr, hjc⟩ := line_through_new_cell _ _ _ _ _ _ _ _ _ hline hold
      have hw : winsAt { g with Board := setCell g.Board r c g.CurrentTurn }
          (r.val : Int) (c.val : Int) d := by
        have hline' : lineOfFour (setCell g.Board r c g.CurrentTurn) g.CurrentTurn
            row col d.1 d.2 := hpv ▸ hline
        exact winsAt_of_line _ _ _ row col d (directions_nonzero hd) j hj0 hj3 hjr hjc hline'
      rcases hres with ⟨_, h1, h2⟩ | ⟨hno, _⟩
      · exact ⟨h1, by rw [h2, hpv]⟩
      · exact absurd hw (hno d hd)

theorem isBoardFull_iff (g : Game) : isBoardFull g = true ↔ ∀ c : Fin 7, g.Board 0 c ≠ 0 := by
  unfold isBoardFull
  simp [List.all_eq_true]

theorem setCell_same (b : Board) (r : Fin 6) (c : Fin 7) (v : Int) : setCell b r c v r c = v := by
  simp [setCell]

theorem setCell_other (b : Board) (r r' : Fin 6) (c c' : Fin 7) (v : Int)
    (h : r' ≠ r ∨ c' ≠ c) : setCell b r c v r' c' = b r' c' := by
  unfold setCell
  split
  · rename_i heq
    rcases h with h | h
    · exact absurd heq.1 h
    · exact absurd heq.2 h
  · rfl

theorem reachable_playMoves (g : Game) (hg : Reachable g) :
    ∀ (cols : List Int) (g' : Game), playMoves g cols = some g' → Reachable g' := by
  intro cols
  induction cols generalizing g with
  | nil => intro g' h; simp only [playMoves, Option.some.injEq] at h; exact h ▸ hg
  | cons column rest ih =>
    intro g' h
    rw [playMoves] at h
    cases hd : DropPiece g column with
    | none => simp [hd] at h
    | some res =>
      obtain ⟨g1, b⟩ := res
      simp only [hd] at h
      exact ih g1 (Reachable.step column hg hd) g' h

theorem reachable_playMoves_getD (cols : List Int) :
    Reachable ((playMoves NewGame cols).getD NewGame) := by
  cases h : playMoves NewGame cols with
  | none => exact Reachable.init
  | some g => exact reachable_playMoves NewGame Reachable.init cols g h

theorem reachable_turn (g : Game) (h : Reachable g) : g.CurrentTurn = 1 ∨ g.CurrentTurn = 2 := by
  induction h with
  | init => left; rfl
  | @step g g' b column _ hdrop ih =>
    cases b with
    | false => rw [(DropPiece_false g column g' hdrop).1]; exact ih
    | true =>
      obtain ⟨_, r, c, _, _, _, _, hturn, _⟩ := DropPiece_true_state g column g' hdrop
      rw [hturn]; split
      · right; rfl
      · left; rfl

/-- An applied or rejected drop keeps every column resting on the bottom row. -/
theorem DropPiece_contiguous (g : Game) (column : Int) (g' : Game) (b : Bool)
    (hc : Contiguous g.Board) (h : DropPiece g column = some (g', b)) :
    Contiguous g'.Board := by
  cases b with
  | false => rw [(DropPiece_false g column g' h).1]; exact hc
  | true =>
    obtain ⟨_, r, c, _, hz, habove, hboard, _, _⟩ := DropPiece_true_state g column g' h
    rw [hboard]
    intro r' c' hr' hne
    by_cases h1 : r' = r ∧ c' = c
    · obtain ⟨rfl, rfl⟩ := h1
      rw [setCell_other _ _ _ _ _ _ (Or.inl (by intro e; rw [Fin.ext_iff] at e; simp at e))]
      exact habove _ (by rw [Fin.lt_def]; simp)
    · have hne' : g.Board r' c' ≠ 0 := by
        rw [setCell_other _ _ _ _ _ _ (by tauto)] at hne
        exact hne
      have hbelow := hc r' c' hr' hne'
      by_cases h2 : (⟨r'.val + 1, by omega⟩ : Fin 6) = r ∧ c' = c
      · obtain ⟨h2r, rfl⟩ := h2
        rw [h2r] at hbelow
        exact absurd hz hbelow
      · rw [setCell_other _ _ _ _ _ _ (by tauto)]
        exact hbelow

theorem contiguous_empty : Contiguous emptyBoard := by
  intro r c _ h
  exact absurd rfl h

theorem reachable_contiguous (g : Game) (h : Reachable g) : Contiguous g.Board := by
  induction h with
  | init => exact contiguous_empty
  | step column _ hdrop ih => exact DropPiece_contiguous _ column _ _ ih hdrop

/-- In a column that obeys gravity, an occupied top cell means a full column. -/
theorem contiguous_column_full (b : Board) (hc : Contiguous b) (c : Fin 7) (htop : b 0 c ≠ 0) :
    ∀ r : Fin 6, b r c ≠ 0 := by
  have key : ∀ n : Nat, ∀ hn : n < 6, b ⟨n, hn⟩ c ≠ 0 := by
    intro n
    induction n with
    | zero => intro _; exact htop
    | succ n ih =>
      intro hn
      exact hc ⟨n, by omega⟩ c (by simp; omega) (ih (by omega))
  intro r
  exact key r.val r.isLt

theorem reachable_full_over (g : Game) (h : Reachable g) :
    isBoardFull g = true → g.IsOver = true := by
  induction h with
  | init =>
    intro hf
    have := (isBoardFull_iff _).1 hf 0
    exact absurd rfl this
  | @step g g' b column _ hdrop ih =>
    cases b with
    | false => rw [(DropPiece_false g column g' hdrop).1]; exact ih
    | true =>
      obtain ⟨_, r, c, _, _, _, hboard, _, hres⟩ := DropPiece_true_state g column g' hdrop
      intro hf
      rcases hres with ⟨_, h1, _⟩ | ⟨_, _, h1⟩
      · exact h1
      · rw [h1, isBoardFull_iff]
        rw [isBoardFull_iff, hboard] at hf
        exact hf

/-- A recorded winner owns a line of four. -/
theorem reachable_winner_sound (g : Game) (h : Reachable g) :
    g.Winner = 0 ∨ ((g.Winner = 1 ∨ g.Winner = 2) ∧ g.IsOver = true ∧ hasFour g.Board g.Winner) := by
  induction h with
  | init => left; rfl
  | @step g g' b column hg hdrop ih =>
    cases b with
    | false => rw [(DropPiece_false g column g' hdrop).1]; exact ih
    | true =>
      obtain ⟨hover, r, c, _, _, _, hboard, _, hres⟩ := DropPiece_true_state g column g' hdrop
      rcases hres with ⟨⟨d, hd, hw⟩, h1, h2⟩ | ⟨_, h1, _⟩
      · right
        rw [h2, hboard]
        refine ⟨reachable_turn g hg, h1, ?_⟩
        apply hasFour_of_winsAt { g with Board := setCell g.Board r c g.CurrentTurn } _ _ d hd _ hw
        show cellAt (setCell g.Board r c g.CurrentTurn) _ _ = some g.CurrentTurn
        rw [cellAt_coe, setCell_same]
      · left
        rw [h1]
        rcases ih with h0 | ⟨_, hov, _⟩
        · exact h0
        · rw [hover] at hov; exact absurd hov Bool.false_ne_true

/-! ## The board engine: claims -/

theorem reachable_afterMoves (cols : List Int) : Reachable (afterMoves cols) :=
  reachable_playMoves_getD cols

/-- C1: in every state reachable from `NewGame()` by `DropPiece` calls, a line
of four cells (horizontal, vertical or diagonal) that all hold player `p`
(1 or 2) means `IsOver` is true and `Winner == p`. -/
theorem win_detection_complete (g : Game) (h : Reachable g) (p : Int) (hp : p = 1 ∨ p = 2)
    (hfour : hasFour g.Board p) : g.IsOver = true ∧ g.Winner = p :=
  reachable_winRecorded g h p hp hfour

theorem win_detection_complete_witness :
    hasFour (afterMoves diagonalGame).Board 1 ∧
      ((afterMoves diagonalGame).IsOver = true ∧ (afterMoves diagonalGame).Winner = 1) :=
  ⟨by decide, win_detection_complete (afterMoves diagonalGame)
    (reachable_afterMoves diagonalGame) 1 (Or.inl rfl) (by decide)⟩

/-- C2: when `DropPiece(column)` returns true, the piece of the player holding
`CurrentTurn` before the call is written to `(r, column)`, where `r` is the
largest row index with `Board[r][column] == 0` before the call, and every other
cell of the grid is unchanged. -/
theorem drop_places_lowest_empty (g g' : Game) (column : Int)
    (h : DropPiece g column = some (g', true)) :
    ∃ (r : Fin 6) (c : Fin 7), (c.val : Int) = column ∧
      g.Board r c = 0 ∧ (∀ r' : Fin 6, r < r' → g.Board r' c ≠ 0) ∧
      g'.Board r c = g.CurrentTurn ∧
      ∀ (r' : Fin 6) (c' : Fin 7), r' ≠ r ∨ c' ≠ c → g'.Board r' c' = g.Board r' c' := by
  obtain ⟨_, r, c, hcol, hz, habove, hboard, _, _⟩ := DropPiece_true_state g column g' h
  refine ⟨r, c, hcol, hz, habove, ?_, ?_⟩
  · rw [hboard, setCell_same]
  · intro r' c' hne
    rw [hboard, setCell_other _ _ _ _ _ _ hne]

theorem drop_places_lowest_empty_witness :
    ∃ (r : Fin 6) (c : Fin 7), (c.val : Int) = 3 ∧
      (afterMoves [3, 3]).Board r c = 0 ∧
      (∀ r' : Fin 6, r < r' → (afterMoves [3, 3]).Board r' c ≠ 0) ∧
      (afterMoves [3, 3, 3]).Board r c = (afterMoves [3, 3]).CurrentTurn ∧
      ∀ (r' : Fin 6) (c' : Fin 7), r' ≠ r ∨ c' ≠ c →
        (afterMoves [3, 3, 3]).Board r' c' = (afterMoves [3, 3]).Board r' c' :=
  drop_places_lowest_empty (afterMoves [3, 3]) (afterMoves [3, 3, 3]) 3 rfl

/-- C3: on a board that obeys gravity, `DropPiece(column)` returns, and it
returns false exactly when `column < 0`, `column > 6`, `IsOver` is true, or the
top cell `Board[0][column]` is occupied. -/
theorem drop_rejected_iff (g : Game) (column : Int) (hc : Contiguous g.Board) :
    (∃ res, DropPiece g column = some res) ∧
      ((DropPiece g column).map Prod.snd = some false ↔
        (column < 0 ∨ column > 6 ∨ g.IsOver = true ∨
          ∃ v, cellAt g.Board 0 column = some v ∧ v ≠ 0)) := by
  obtain ⟨⟨g', b⟩, hres⟩ := DropPiece_returns g column
  refine ⟨⟨_, hres⟩, ?_⟩
  rw [hres]
  simp only [Option.map_some', Option.some.injEq]
  constructor
  · intro hb
    subst hb
    rcases (DropPiece_false g column g' hres).2 with h | h | h | ⟨c, hcol, hall⟩
    · exact Or.inl h
    · exact Or.inr (Or.inl h)
    · exact Or.inr (Or.inr (Or.inl h))
    · refine Or.inr (Or.inr (Or.inr ⟨g.Board 0 c, ?_, hall 0⟩))
      rw [← hcol]
      exact cellAt_coe g.Board 0 c
  · intro hcond
    cases b with
    | false => rfl
    | true =>
      exfalso
      obtain ⟨hover, r, c, hcol, hz, _⟩ := DropPiece_true g column g' hres
      have hc0 := c.isLt
      rcases hcond with h | h | h | ⟨v, hv, hne⟩
      · omega
      · omega
      · rw [hover] at h; exact Bool.false_ne_true h
      · rw [← hcol] at hv
        have := cellAt_coe g.Board 0 c
        simp only [Fin.val_zero, Nat.cast_zero] at this
        rw [this] at hv
        simp only [Option.some.injEq] at hv
        exact contiguous_column_full g.Board hc c (by rw [hv]; exact hne) r hz

theorem drop_rejected_iff_witness :
    (∃ res, DropPiece (afterMoves [2, 2, 2, 2, 2, 2]) 2 = some res) ∧
      ((DropPiece (afterMoves [2, 2, 2, 2, 2, 2]) 2).map Prod.snd = some false ↔
        ((2 : Int) < 0 ∨ (2 : Int) > 6 ∨ (afterMoves [2, 2, 2, 2, 2, 2]).IsOver = true ∨
          ∃ v, cellAt (afterMoves [2, 2, 2, 2, 2, 2]).Board 0 2 = some v ∧ v ≠ 0)) :=
  drop_rejected_iff (afterMoves [2, 2, 2, 2, 2, 2]) 2
    (reachable_contiguous _ (reachable_afterMoves _))

/-- C4: a rejected move is a no-op: if `DropPiece(column)` returns false then
`Board`, `CurrentTurn`, `IsOver` and `Winner` are as before the call; and a
call made while `IsOver` is true is rejected, so it never changes the grid. -/
theorem rejected_drop_is_noop (g : Game) (column : Int) :
    (∀ g', DropPiece g column = some (g', false) → g' = g) ∧
      (g.IsOver = true → DropPiece g column = some (g, false)) := by
  refine ⟨fun g' h => (DropPiece_false g column g' h).1, ?_⟩
  intro hover
  unfold DropPiece
  simp [hover]

theorem rejected_drop_is_noop_witness :
    DropPiece (afterMoves diagonalGame) 4 = some (afterMoves diagonalGame, false) :=
  (rejected_drop_is_noop (afterMoves diagonalGame) 4).2 (by decide)

/-- C5: gravity is an invariant: it holds for `NewGame()`, every `DropPiece`
call preserves it, and so in every reachable state a non-empty cell above the
bottom row has a non-empty cell right below it. -/
theorem contiguity_invariant :
    Contiguous NewGame.Board ∧
      (∀ (g g' : Game) (column : Int) (b : Bool), Contiguous g.Board →
        DropPiece g column = some (g', b) → Contiguous g'.Board) ∧
      (∀ g : Game, Reachable g → ∀ (r : Fin 6) (c : Fin 7) (h : r.val < 5),
        g.Board r c ≠ 0 → g.Board ⟨r.val + 1, by omega⟩ c ≠ 0) :=
  ⟨contiguous_empty, fun g g' column b hc h => DropPiece_contiguous g column g' b hc h,
    fun g hg => reachable_contiguous g hg⟩

theorem contiguity_invariant_witness : Contiguous (afterMoves diagonalGame).Board :=
  contiguity_invariant.2.2 (afterMoves diagonalGame) (reachable_afterMoves diagonalGame)

/-- C6: in every reachable state in which all 42 cells are non-empty and
neither player has a line of four, `IsOver` is true and `Winner == 0`. -/
theorem draw_detection (g : Game) (h : Reachable g)
    (hfull : ∀ (r : Fin 6) (c : Fin 7), g.Board r c ≠ 0)
    (h1 : ¬ hasFour g.Board 1) (h2 : ¬ hasFour g.Board 2) :
    g.IsOver = true ∧ g.Winner = 0 := by
  refine ⟨reachable_full_over g h ((isBoardFull_iff g).2 (fun c => hfull 0 c)), ?_⟩
  rcases reachable_winner_sound g h with h0 | ⟨hw | hw, _, hfour⟩
  · exact h0
  · rw [hw] at hfour; exact absurd hfour h1
  · rw [hw] at hfour; exact absurd hfour h2

theorem draw_detection_witness :
    (afterMoves drawnGame).IsOver = true ∧ (afterMoves drawnGame).Winner = 0 :=
  draw_detection (afterMoves drawnGame) (reachable_afterMoves drawnGame)
    (by decide) (by decide) (by decide)

/-- C7: for a state with `CurrentTurn` in {1, 2}, an applied drop hands the
turn to the other player (`3 - CurrentTurn`), also when the move ends the game;
so after a move that records a winner, `Winner` is the mover and differs from
the new `CurrentTurn`. -/
theorem turn_toggles_after_drop (g g' : Game) (column : Int)
    (hturn : g.CurrentTurn = 1 ∨ g.CurrentTurn = 2)
    (h : DropPiece g column = some (g', true)) :
    g'.CurrentTurn = 3 - g.CurrentTurn ∧
      (g.Winner = 0 → g'.Winner ≠ 0 →
        g'.IsOver = true ∧ g'.Winner = g.CurrentTurn ∧ g'.Winner ≠ g'.CurrentTurn) := by
  obtain ⟨_, r, c, _, _, _, _, ht, hres⟩ := DropPiece_true_state g column g' h
  have hnext : g'.CurrentTurn = 3 - g.CurrentTurn := by
    rw [ht]
    rcases hturn with h1 | h2
    · rw [h1]; rfl
    · rw [h2]; rfl
  refine ⟨hnext, ?_⟩
  intro hw0 hw
  rcases hres with ⟨_, hover, hwin⟩ | ⟨_, hsame, _⟩
  · refine ⟨hover, hwin, ?_⟩
    rw [hwin, hnext]
    omega
  · rw [hsame] at hw
    exact absurd hw0 hw

theorem turn_toggles_after_drop_witness :
    (afterMoves diagonalGame).CurrentTurn = 3 - (afterMoves (diagonalGame.take 10)).CurrentTurn ∧
      ((afterMoves (diagonalGame.take 10)).Winner = 0 → (afterMoves diagonalGame).Winner ≠ 0 →
        (afterMoves diagonalGame).IsOver = true ∧
          (afterMoves diagonalGame).Winner = (afterMoves (diagonalGame.take 10)).CurrentTurn ∧
          (afterMoves diagonalGame).Winner ≠ (afterMoves diagonalGame).CurrentTurn) :=
  turn_toggles_after_drop (afterMoves (diagonalGame.take 10)) (afterMoves diagonalGame) 3
    (Or.inl (by decide)) rfl

/-! ## The session manager -/

theorem getGameLock_clients (s : Server) (gameID : String) :
    (getGameLock s gameID).clients = s.clients := by
  unfold getGameLock; split <;> rfl

theorem getGameLock_games (s : Server) (gameID : String) :
    (getGameLock s gameID).games = s.games := by
  unfold getGameLock; split <;> rfl

/-- Two registered records with the same identity are the same record. -/
theorem eq_of_id_eq (s : Server) (hd : DistinctIds s) {c d : Client}
    (hc : c ∈ s.clients) (hdm : d ∈ s.clients) (h : c.id = d.id) : c = d :=
  List.inj_on_of_nodup_map hd hc hdm h

theorem clientById_of_mem (s : Server) (hd : DistinctIds s) (a : Client) (ha : a ∈ s.clients) :
    clientById s a.id = some a := by
  unfold clientById
  cases hf : s.clients.find? (fun client => client.id == a.id) with
  | none =>
    rw [List.find?_eq_none] at hf
    exact absurd (by simp) (hf a ha)
  | some c =>
    have hc := List.mem_of_find?_eq_some hf
    have hp := List.find?_some hf
    simp only [beq_iff_eq] at hp
    rw [eq_of_id_eq s hd hc ha hp]

/-- C8: a `move` from a client that does not hold the turn, or sent while the
game is over, leaves the session's games (hence `Board`, `CurrentTurn`,
`IsOver`, `Winner`) and every client record, its `Send` queue included,
unchanged. -/
theorem move_out_of_turn_ignored (s : Server) (id : Nat) (column : Int)
    (client : Client) (game : Game)
    (hclient : clientById s id = some client)
    (hgame : s.games client.GameID = some game)
    (hwrong : game.CurrentTurn ≠ client.Player ∨ game.IsOver = true) :
    ∃ s', handleMessage s id (InMsg.move column) = some s' ∧
      s'.games = s.games ∧ s'.clients = s.clients := by
  refine ⟨getGameLock s client.GameID, ?_, getGameLock_games _ _, getGameLock_clients _ _⟩
  unfold handleMessage
  simp only [hclient, getGameLock_games, hgame]
  rw [if_pos hwrong]

theorem markPlayAgain_ids (s : Server) (id : Nat) :
    (markPlayAgain s id).clients.map (fun client => client.id)
      = s.clients.map (fun client => client.id) := by
  unfold markPlayAgain
  simp only [List.map_map]
  apply List.map_congr_left
  intro c _
  simp only [Function.comp]
  split <;> rfl

theorem distinctIds_getGameLock (s : Server) (gameID : String) (hd : DistinctIds s) :
    DistinctIds (getGameLock s gameID) := by
  unfold DistinctIds
  rw [getGameLock_clients]
  exact hd

theorem distinctIds_markPlayAgain (s : Server) (id : Nat) (hd : DistinctIds s) :
    DistinctIds (markPlayAgain s id) := by
  unfold DistinctIds
  rw [markPlayAgain_ids]
  exact hd

/-- C9: with exactly two bound connections `a` and `b`, of which `b` has not
voted, a `play_again` from `a` leaves the games alone and sets only the flag of
`a` (so this holds in particular when both flags were false); the `play_again`
from `b` that follows replaces the game by `NewGame()`, clears both flags and
enqueues `reset` followed by the fresh `game_state` to each bound connection. -/
theorem rematch_needs_both_votes (s : Server) (gameID : String) (a b : Client)
    (hd : DistinctIds s) (hpair : BoundPair s gameID a b) (hb : b.PlayAgain = false) :
    ∃ s1 s2, handleMessage s a.id InMsg.play_again = some s1 ∧
      s1.games = s.games ∧
      s1.clients = s.clients.map (fun c =>
        if c.id = a.id then { c with PlayAgain := true } else c) ∧
      handleMessage s1 b.id InMsg.play_again = some s2 ∧
      s2.games gameID = some NewGame ∧
      (NewGame.Board = (fun _ _ => 0) ∧ NewGame.CurrentTurn = 1 ∧
        NewGame.IsOver = false ∧ NewGame.Winner = 0) ∧
      s2.clients = s.clients.map (fun c =>
        if c.GameID = gameID then
          { c with PlayAgain := false,
                   Send := c.Send ++ [OutMsg.reset, OutMsg.game_state (some NewGame)] }
        else c) := by
  obtain ⟨ham, hbm, hab, haG, hbG, honly⟩ := hpair
  have hba : ¬ b.id = a.id := fun h => hab h.symm
  -- the first vote
  have hfind_a := clientById_of_mem s hd a ham
  have hnot_ready : allPlayersReady (markPlayAgain (getGameLock s a.GameID) a.id) a.GameID
      = false := by
    unfold allPlayersReady
    rw [List.all_eq_false]
    refine ⟨b, ?_, ?_⟩
    · unfold markPlayAgain
      simp only [getGameLock_clients, List.mem_map]
      exact ⟨b, hbm, by rw [if_neg (fun h => hab h.symm)]⟩
    · simp [hb, hbG, haG]
  have hstep1 : handleMessage s a.id InMsg.play_again
      = some (markPlayAgain (getGameLock s a.GameID) a.id) := by
    unfold handleMessage
    simp only [hfind_a, hnot_ready]
    rfl
  -- the second vote
  have hd1 : DistinctIds (markPlayAgain (getGameLock s a.GameID) a.id) :=
    distinctIds_markPlayAgain _ _ (distinctIds_getGameLock _ _ hd)
  have hbm1 : b ∈ (markPlayAgain (getGameLock s a.GameID) a.id).clients := by
    unfold markPlayAgain
    simp only [getGameLock_clients, List.mem_map]
    exact ⟨b, hbm, by rw [if_neg (fun h => hab h.symm)]⟩
  have hfind_b := clientById_of_mem _ hd1 b hbm1
  have hready : allPlayersReady
      (markPlayAgain (getGameLock (markPlayAgain (getGameLock s a.GameID) a.id) b.GameID) b.id)
      b.GameID = true := by
    unfold allPlayersReady
    rw [List.all_eq_true]
    intro x hx
    unfold markPlayAgain at hx
    simp only [getGameLock_clients, List.mem_map, exists_exists_and_eq_and] at hx
    obtain ⟨c, hc, rfl⟩ := hx
    by_cases hcG : c.GameID = gameID
    · rcases honly c hc hcG with hca | hcb
      · by_cases hcb : c.id = b.id
        · simp [hca, hcb, hab, hba]
        · simp [hca, hcb, hab, hba]
      · have hca : c.id ≠ a.id := fun h => hab (h.symm.trans hcb)
        simp [hca, hcb, hab, hba]
    · have : ¬ c.GameID = b.GameID := by rw [hbG]; exact hcG
      by_cases hca : c.id = a.id <;> by_cases hcb : c.id = b.id <;> simp [hca, hcb, hab, hba, this]
  have hstep2 : handleMessage (markPlayAgain (getGameLock s a.GameID) a.id) b.id InMsg.play_again
      = some (resetGame (markPlayAgain (getGameLock
          (markPlayAgain (getGameLock s a.GameID) a.id) b.GameID) b.id) b.GameID) := by
    unfold handleMessage
    simp only [hfind_b, hready]
    rfl
  refine ⟨markPlayAgain (getGameLock s a.GameID) a.id, _, hstep1, getGameLock_games _ _, ?_,
    hstep2, ?_, ⟨rfl, rfl, rfl, rfl⟩, ?_⟩
  · unfold markPlayAgain
    simp only [getGameLock_clients]
  · simp [resetGame, setGame, hbG]
  · simp only [resetGame, markPlayAgain, getGameLock_clients, List.map_map]
    apply List.map_congr_left
    intro c hc
    simp only [Function.comp, sendGameState, enqueue, setGame]
    by_cases hcG : c.GameID = gameID
    · rcases honly c hc hcG with hca | hcb
      · have hcb : c.id ≠ b.id := fun h => hab (hca.symm.trans h)
        simp [hca, hcb, hab, hba, hcG, hbG]
      · have hca : c.id ≠ a.id := fun h => hab (h.symm.trans hcb)
        simp [hca, hcb, hab, hba, hcG, hbG]
    · by_cases hca : c.id = a.id
      · exact absurd ((eq_of_id_eq s hd hc ham hca) ▸ haG) hcG
      · by_cases hcb : c.id = b.id
        · exact absurd ((eq_of_id_eq s hd hc hbm hcb) ▸ hbG) hcG
        · simp [hca, hcb, hab, hba, hcG, hbG]

theorem eq_singleton_of_nodup {α : Type} (l : List α) (x : α) (hn : l.Nodup)
    (h : ∀ y, y ∈ l ↔ y = x) : l = [x] := by
  cases l with
  | nil => exact absurd ((h x).2 rfl) (List.not_mem_nil x)
  | cons y t =>
    have hy : y = x := (h y).1 (List.mem_cons_self _ _)
    subst hy
    cases t with
    | nil => rfl
    | cons z t' =>
      have hz : z = y := (h z).1 (List.mem_cons_of_mem _ (List.mem_cons_self _ _))
      subst hz
      rw [List.nodup_cons] at hn
      exact absurd (List.mem_cons_self _ _) hn.1

/-- Once `a` of the pair is removed, `b` is the one client of the session. -/
theorem remaining_after_delete (s : Server) (gameID : String) (a b : Client)
    (hd : DistinctIds s) (hpair : BoundPair s gameID a b) :
    (s.clients.filter (fun c => !(c.id == a.id))).filter (fun client => client.GameID == gameID)
      = [b] := by
  obtain ⟨_, hbm, hab, _, hbG, honly⟩ := hpair
  apply eq_singleton_of_nodup
  · exact ((List.Nodup.of_map _ hd).filter _).filter _
  · intro y
    simp only [List.mem_filter, Bool.not_eq_eq_eq_not, Bool.not_true, beq_eq_false_iff_ne, ne_eq,
      beq_iff_eq]
    constructor
    · rintro ⟨⟨hy, hya⟩, hyG⟩
      rcases honly y hy hyG with h | h
      · exact absurd h hya
      · exact eq_of_id_eq s hd hy hbm h
    · rintro rfl
      exact ⟨⟨hbm, fun h => hab h.symm⟩, hbG⟩

/-- C10: when one of two bound connections disconnects, the session's game
becomes the empty board with `IsOver` false, `Winner` 0 and `CurrentTurn` the
slot of the remaining connection, and that state is enqueued to the remaining
connection (the departed one is gone from the set). -/
theorem disconnect_resets_for_remaining (s : Server) (gameID : String) (a b : Client)
    (game : Game) (hd : DistinctIds s) (hpair : BoundPair s gameID a b)
    (hgame : s.games gameID = some game) :
    ∃ s', handleClientDisconnect s a.id = some s' ∧
      s'.games gameID
        = some { Board := fun _ _ => 0, CurrentTurn := b.Player, IsOver := false, Winner := 0 } ∧
      getClientsInGame s' gameID
        = [{ b with Send := b.Send ++ [OutMsg.game_state
            (some { Board := fun _ _ => 0, CurrentTurn := b.Player,
                    IsOver := false, Winner := 0 })] }] := by
  have hrem := remaining_after_delete s gameID a b hd hpair
  obtain ⟨ham, hbm, hab, haG, hbG, honly⟩ := hpair
  have hfind_a := clientById_of_mem s hd a ham
  have hstep : handleClientDisconnect s a.id
      = some (broadcastGameState
          (Server.mk (s.clients.filter (fun c => !(c.id == a.id)))
            (setGame s.games gameID (some (Game.mk emptyBoard b.Player false 0)))
            (getGameLock (Server.mk (s.clients.filter (fun c => !(c.id == a.id)))
              s.games s.gameLocks) gameID).gameLocks) gameID) := by
    unfold handleClientDisconnect
    simp only [hfind_a, haG, getClientsInGame, getGameLock_clients, getGameLock_games, hrem, hgame]
  refine ⟨_, hstep, ?_, ?_⟩
  · simp only [broadcastGameState, setGame, if_true]
    rfl
  · simp only [getClientsInGame, broadcastGameState, List.filter_map]
    have hcomp : ((fun client : Client => client.GameID == gameID) ∘ fun client : Client =>
        if client.GameID = gameID then
          enqueue (OutMsg.game_state (setGame s.games gameID
            (some (Game.mk emptyBoard b.Player false 0)) gameID)) client
        else client) = (fun client : Client => client.GameID == gameID) := by
      funext c
      simp only [Function.comp]
      split <;> rfl
    rw [hcomp, hrem]
    simp only [setGame, enqueue, hbG, if_true, List.map_cons, List.map_nil]
    rfl

theorem pairServer_distinctIds (game : Game) : DistinctIds (pairServer game) := by
  show ([1, 2] : List Nat).Nodup
  decide

theorem pairServer_boundPair (game : Game) :
    BoundPair (pairServer game) "game-1" clientOne clientTwo := by
  refine ⟨List.mem_cons_self _ _, List.mem_cons_of_mem _ (List.mem_cons_self _ _),
    by decide, rfl, rfl, ?_⟩
  intro c hc _
  simp only [pairServer, List.mem_cons, List.mem_singleton, List.mem_nil_iff, or_false] at hc
  rcases hc with rfl | rfl
  · left; rfl
  · right; rfl

theorem pairServer_boundPair_swap (game : Game) :
    BoundPair (pairServer game) "game-1" clientTwo clientOne := by
  refine ⟨List.mem_cons_of_mem _ (List.mem_cons_self _ _), List.mem_cons_self _ _,
    by decide, rfl, rfl, ?_⟩
  intro c hc _
  simp only [pairServer, List.mem_cons, List.mem_singleton, List.mem_nil_iff, or_false] at hc
  rcases hc with rfl | rfl
  · right; rfl
  · left; rfl

theorem move_out_of_turn_ignored_witness :
    ∃ s', handleMessage (pairServer NewGame) 2 (InMsg.move 3) = some s' ∧
      s'.games = (pairServer NewGame).games ∧ s'.clients = (pairServer NewGame).clients :=
  move_out_of_turn_ignored (pairServer NewGame) 2 3 clientTwo NewGame rfl rfl
    (Or.inl (by decide))

theorem rematch_needs_both_votes_witness :
    ∃ s1 s2, handleMessage (pairServer (afterMoves diagonalGame)) clientOne.id InMsg.play_again
        = some s1 ∧
      s1.games = (pairServer (afterMoves diagonalGame)).games ∧
      s1.clients = (pairServer (afterMoves diagonalGame)).clients.map (fun c =>
        if c.id = clientOne.id then { c with PlayAgain := true } else c) ∧
      handleMessage s1 clientTwo.id InMsg.play_again = some s2 ∧
      s2.games "game-1" = some NewGame ∧
      (NewGame.Board = (fun _ _ => 0) ∧ NewGame.CurrentTurn = 1 ∧
        NewGame.IsOver = false ∧ NewGame.Winner = 0) ∧
      s2.clients = (pairServer (afterMoves diagonalGame)).clients.map (fun c =>
        if c.GameID = "game-1" then
          { c with PlayAgain := false,
                   Send := c.Send ++ [OutMsg.reset, OutMsg.game_state (some NewGame)] }
        else c) :=
  rematch_needs_both_votes (pairServer (afterMoves diagonalGame)) "game-1" clientOne clientTwo
    (pairServer_distinctIds _) (pairServer_boundPair _) rfl

theorem disconnect_resets_for_remaining_witness :
    ∃ s', handleClientDisconnect (pairServer (afterMoves [3])) clientTwo.id = some s' ∧
      s'.games "game-1"
        = some { Board := fun _ _ => 0, CurrentTurn := clientOne.Player, IsOver := false,
                 Winner := 0 } ∧
      getClientsInGame s' "game-1"
        = [{ clientOne with Send := clientOne.Send ++ [OutMsg.game_state
            (some { Board := fun _ _ => 0, CurrentTurn := clientOne.Player,
                    IsOver := false, Winner := 0 })] }] :=
  disconnect_resets_for_remaining (pairServer (afterMoves [3])) "game-1" clientTwo clientOne
    (afterMoves [3]) (pairServer_distinctIds _) (pairServer_boundPair_swap _) rfl

/-! ## Further claims -/

/-- The vertical-win scenario for columns given as grid indices. -/
theorem vertical_trace_fin : ∀ a b : Fin 7, a ≠ b →
    dropTrace NewGame [(a.val : Int), b.val, a.val, b.val, a.val, b.val, a.val]
      = some [(true, false, 0), (true, false, 0), (true, false, 0), (true, false, 0),
          (true, false, 0), (true, false, 0), (true, true, 1)] := by
  decide

/-- C13: for distinct columns `a` and `b` in 0..6, the seven calls
`DropPiece(a), (b), (a), (b), (a), (b), (a)` from `NewGame()` all return true;
after each of the first six `IsOver` is false and `Winner` is 0, and after the
seventh `IsOver` is true and `Winner == 1`. -/
theorem vertical_win_scenario (a b : Int) (ha0 : 0 ≤ a) (ha6 : a ≤ 6) (hb0 : 0 ≤ b)
    (hb6 : b ≤ 6) (hab : a ≠ b) :
    dropTrace NewGame [a, b, a, b, a, b, a]
      = some [(true, false, 0), (true, false, 0), (true, false, 0), (true, false, 0),
          (true, false, 0), (true, false, 0), (true, true, 1)] := by
  have hA : ((⟨a.toNat, by omega⟩ : Fin 7).val : Int) = a := by simp; omega
  have hB : ((⟨b.toNat, by omega⟩ : Fin 7).val : Int) = b := by simp; omega
  have hne : (⟨a.toNat, by omega⟩ : Fin 7) ≠ ⟨b.toNat, by omega⟩ := by
    intro h
    rw [Fin.ext_iff] at h
    simp only at h
    omega
  have := vertical_trace_fin _ _ hne
  rw [hA, hB] at this
  exact this

theorem vertical_win_scenario_witness :
    dropTrace NewGame [0, 1, 0, 1, 0, 1, 0]
      = some [(true, false, 0), (true, false, 0), (true, false, 0), (true, false, 0),
          (true, false, 0), (true, false, 0), (true, true, 1)] :=
  vertical_win_scenario 0 1 (by decide) (by decide) (by decide) (by decide) (by decide)

theorem wellFormed_NewGame : WellFormed NewGame :=
  ⟨fun _ _ => Or.inl rfl, Or.inl rfl, Or.inl rfl, fun h => absurd rfl h⟩

/-- A call of `DropPiece` keeps every field in its range. -/
theorem DropPiece_wellFormed (g : Game) (column : Int) (g' : Game) (b : Bool)
    (hw : WellFormed g) (h : DropPiece g column = some (g', b)) : WellFormed g' := by
  cases b with
  | false => rw [(DropPiece_false g column g' h).1]; exact hw
  | true =>
    obtain ⟨hcells, hturn, hwin, hover⟩ := hw
    obtain ⟨hnot, r, c, _, _, _, hboard, ht, hres⟩ := DropPiece_true_state g column g' h
    have hw0 : g.Winner = 0 := by
      by_contra hne
      have := hover hne
      rw [hnot] at this
      exact Bool.false_ne_true this
    refine ⟨?_, ?_, ?_, ?_⟩
    · intro r' c'
      rw [hboard]
      by_cases hrc : r' = r ∧ c' = c
      · obtain ⟨rfl, rfl⟩ := hrc
        rw [setCell_same]
        exact Or.inr hturn
      · rw [setCell_other _ _ _ _ _ _ (by tauto)]
        exact hcells r' c'
    · rw [ht]; split
      · right; rfl
      · left; rfl
    · rcases hres with ⟨_, _, h2⟩ | ⟨_, h2, _⟩
      · rw [h2]; exact Or.inr hturn
      · rw [h2]; exact hwin
    · rcases hres with ⟨_, h1, _⟩ | ⟨_, h2, _⟩
      · intro _; exact h1
      · intro hne; rw [h2] at hne; exact absurd hw0 hne

theorem reachable_wellFormed (g : Game) (h : Reachable g) : WellFormed g := by
  induction h with
  | init => exact wellFormed_NewGame
  | step column _ hdrop ih => exact DropPiece_wellFormed _ column _ _ ih hdrop

theorem reachableLast_reachable (g : Game) (last : Option Int) (h : ReachableLast g last) :
    Reachable g := by
  induction h with
  | init => exact Reachable.init
  | applied column _ hdrop ih => exact Reachable.step column ih hdrop
  | rejected column _ hdrop ih => exact Reachable.step column ih hdrop

theorem reachable_reachableLast (g : Game) (h : Reachable g) : ∃ last, ReachableLast g last := by
  induction h with
  | init => exact ⟨none, ReachableLast.init⟩
  | @step g g' b column _ hdrop ih =>
    obtain ⟨last, hl⟩ := ih
    cases b with
    | true => exact ⟨_, ReachableLast.applied column hl hdrop⟩
    | false => exact ⟨_, ReachableLast.rejected column hl hdrop⟩

/-- A recorded winner is the player who placed the last piece. -/
theorem reachableLast_winner (g : Game) (last : Option Int) (h : ReachableLast g last) :
    g.Winner ≠ 0 → last = some g.Winner := by
  induction h with
  | init => intro h; exact absurd rfl h
  | @applied g g' last column hl hdrop ih =>
    intro hne
    obtain ⟨hnot, r, c, _, _, _, _, _, hres⟩ := DropPiece_true_state g column g' hdrop
    rcases hres with ⟨_, _, h2⟩ | ⟨_, h2, _⟩
    · rw [h2]
    · exfalso
      rw [h2] at hne
      have := (reachable_wellFormed g (reachableLast_reachable g last hl)).2.2.2 hne
      rw [hnot] at this
      exact Bool.false_ne_true this
  | @rejected g g' last column _ hdrop ih =>
    rw [(DropPiece_false g column g' hdrop).1]
    exact ih

/-- A finished game has a winner or a full top row. -/
theorem reachable_over_cause (g : Game) (h : Reachable g) :
    g.IsOver = true → g.Winner ≠ 0 ∨ isBoardFull g = true := by
  induction h with
  | init => intro h; exact absurd h (by decide)
  | @step g g' b column hg hdrop ih =>
    cases b with
    | false => rw [(DropPiece_false g column g' hdrop).1]; exact ih
    | true =>
      intro hover
      obtain ⟨_, r, c, _, _, _, hboard, _, hres⟩ := DropPiece_true_state g column g' hdrop
      rcases hres with ⟨_, _, h2⟩ | ⟨_, _, h3⟩
      · left
        rw [h2]
        rcases reachable_turn g hg with h | h <;> rw [h] <;> decide
      · right
        rw [h3] at hover
        rw [isBoardFull_iff] at hover ⊢
        rw [hboard]
        exact hover

/-- On a board that obeys gravity, a full top row is a full grid. -/
theorem full_of_top_row (g : Game) (hc : Contiguous g.Board) (hf : isBoardFull g = true) :
    ∀ (r : Fin 6) (c : Fin 7), g.Board r c ≠ 0 :=
  fun r c => contiguous_column_full g.Board hc c ((isBoardFull_iff g).1 hf c) r

/-- Writing `v` into an empty cell adds one to the count of `v` and leaves the
count of every other player alone. -/
theorem countCells_setCell (b : Board) (r : Fin 6) (c : Fin 7) (v p : Int)
    (hz : b r c = 0) (hp : p ≠ 0) :
    countCells (setCell b r c v) p = countCells b p + (if v = p then 1 else 0) := by
  unfold countCells
  by_cases hv : v = p
  · have hset : Finset.univ.filter (fun rc : Fin 6 × Fin 7 => setCell b r c v rc.1 rc.2 = p)
        = insert (r, c) (Finset.univ.filter (fun rc : Fin 6 × Fin 7 => b rc.1 rc.2 = p)) := by
      ext ⟨r', c'⟩
      simp only [Finset.mem_filter, Finset.mem_univ, true_and, Finset.mem_insert, Prod.mk.injEq]
      by_cases hrc : r' = r ∧ c' = c
      · obtain ⟨rfl, rfl⟩ := hrc
        simp [setCell_same, hv]
      · rw [setCell_other _ _ _ _ _ _ (by tauto)]
        simp [hrc]
    rw [hset, Finset.card_insert_of_not_mem, if_pos hv]
    simp only [Finset.mem_filter, Finset.mem_univ, true_and]
    rw [hz]
    exact fun h => hp h.symm
  · have hset : Finset.univ.filter (fun rc : Fin 6 × Fin 7 => setCell b r c v rc.1 rc.2 = p)
        = Finset.univ.filter (fun rc : Fin 6 × Fin 7 => b rc.1 rc.2 = p) := by
      ext ⟨r', c'⟩
      simp only [Finset.mem_filter, Finset.mem_univ, true_and]
      by_cases hrc : r' = r ∧ c' = c
      · obtain ⟨rfl, rfl⟩ := hrc
        rw [setCell_same, hz]
        constructor
        · intro h; exact absurd h hv
        · intro h; exact absurd h.symm hp
      · rw [setCell_other _ _ _ _ _ _ (by tauto)]
    rw [hset, if_neg hv, Nat.add_zero]

theorem countCells_empty (p : Int) (hp : p ≠ 0) : countCells emptyBoard p = 0 := by
  unfold countCells
  rw [Finset.card_eq_zero, Finset.filter_eq_empty_iff]
  intro rc _ h
  exact hp h.symm

/-- The piece counts follow the turn. -/
theorem reachable_counts (g : Game) (h : Reachable g) :
    (g.CurrentTurn = 1 → countCells g.Board 1 = countCells g.Board 2) ∧
      (g.CurrentTurn = 2 → countCells g.Board 1 = countCells g.Board 2 + 1) := by
  induction h with
  | init =>
    refine ⟨fun _ => ?_, fun h => absurd h (by decide)⟩
    show countCells emptyBoard 1 = countCells emptyBoard 2
    rw [countCells_empty 1 (by decide), countCells_empty 2 (by decide)]
  | @step g g' b column hg hdrop ih =>
    cases b with
    | false => rw [(DropPiece_false g column g' hdrop).1]; exact ih
    | true =>
      obtain ⟨_, r, c, _, hz, _, hboard, ht, _⟩ := DropPiece_true_state g column g' hdrop
      rw [hboard, ht, countCells_setCell _ _ _ _ 1 hz (by decide),
        countCells_setCell _ _ _ _ 2 hz (by decide)]
      rcases reachable_turn g hg with h1 | h2
      · have := ih.1 h1
        rw [h1]
        simp only [if_true]
        refine ⟨fun h => absurd h (by decide), fun _ => ?_⟩
        simp [this]
      · have := ih.2 h2
        rw [h2]
        refine ⟨fun _ => ?_, fun h => ?_⟩
        · simp [this]
        · simp at h

/-- C17: in every state reachable by `DropPiece` calls, a recorded winner
`p != 0` owns four contiguous cells in a horizontal, vertical or diagonal line,
and `p` is the player who placed the last piece. -/
theorem win_detection_sound (g : Game) (last : Option Int) (h : ReachableLast g last)
    (p : Int) (hw : g.Winner = p) (hp : p ≠ 0) :
    hasFour g.Board p ∧ last = some p := by
  subst hw
  refine ⟨?_, reachableLast_winner g last h hp⟩
  rcases reachable_winner_sound g (reachableLast_reachable g last h) with h0 | ⟨_, _, hfour⟩
  · exact absurd h0 hp
  · exact hfour

/-- C18: in every state reachable by `DropPiece` calls, a finished game without
a winner has no empty cell; and `isBoardFull`, which reads row 0 only, is true
exactly when no cell of the grid is empty. -/
theorem draw_only_on_full_board (g : Game) (h : Reachable g) :
    (g.IsOver = true ∧ g.Winner = 0 → ∀ (r : Fin 6) (c : Fin 7), g.Board r c ≠ 0) ∧
      (isBoardFull g = true ↔ ∀ (r : Fin 6) (c : Fin 7), g.Board r c ≠ 0) := by
  have hc := reachable_contiguous g h
  refine ⟨?_, ⟨full_of_top_row g hc, fun hall => (isBoardFull_iff g).2 (fun c => hall 0 c)⟩⟩
  rintro ⟨hover, hw⟩
  rcases reachable_over_cause g h hover with hne | hfull
  · exact absurd hw hne
  · exact full_of_top_row g hc hfull

/-- C19: in every state reachable by `DropPiece` calls alone, the cells
holding 1 are as many as the cells holding 2 when `CurrentTurn == 1`, and one
more when `CurrentTurn == 2`. -/
theorem counts_follow_turn (g : Game) (h : Reachable g) :
    (g.CurrentTurn = 1 → countCells g.Board 1 = countCells g.Board 2) ∧
      (g.CurrentTurn = 2 → countCells g.Board 1 = countCells g.Board 2 + 1) :=
  reachable_counts g h

theorem keepsSlot_id : KeepsSlot (fun c => c) := fun _ => ⟨rfl, rfl, rfl⟩

theorem keepsSlot_comp {f g : Client → Client} (hf : KeepsSlot f) (hg : KeepsSlot g) :
    KeepsSlot (fun c => g (f c)) := by
  intro c
  obtain ⟨h1, h2, h3⟩ := hf c
  obtain ⟨k1, k2, k3⟩ := hg (f c)
  exact ⟨k1.trans h1, k2.trans h2, k3.trans h3⟩

theorem keepsSlot_enqueueIf (gameID : String) (msg : OutMsg) :
    KeepsSlot (fun client => if client.GameID = gameID then enqueue msg client else client) := by
  intro c; dsimp only; split <;> exact ⟨rfl, rfl, rfl⟩

theorem keepsSlot_mark (id : Nat) :
    KeepsSlot (fun client =>
      if client.id = id then { client with PlayAgain := true } else client) := by
  intro c; dsimp only; split <;> exact ⟨rfl, rfl, rfl⟩

theorem keepsSlot_clear (gameID : String) :
    KeepsSlot (fun client =>
      if client.GameID = gameID then { client with PlayAgain := false } else client) := by
  intro c; dsimp only; split <;> exact ⟨rfl, rfl, rfl⟩

theorem keepsSlot_resetSend (s : Server) (gameID : String) :
    KeepsSlot (fun client =>
      if client.GameID = gameID then sendGameState s (enqueue OutMsg.reset client)
      else client) := by
  intro c; dsimp only; split <;> exact ⟨rfl, rfl, rfl⟩

/-- What `broadcastGameState` does to the records. -/
theorem broadcastGameState_shape (s : Server) (gameID : String) :
    (broadcastGameState s gameID).games = s.games ∧
      ∃ f, (broadcastGameState s gameID).clients = s.clients.map f ∧ KeepsSlot f ∧
        ∀ c, c.GameID ≠ gameID → f c = c := by
  refine ⟨rfl, _, rfl, keepsSlot_enqueueIf gameID _, ?_⟩
  intro c hc
  simp only [if_neg hc]

/-- What `resetGame` does to the records. -/
theorem resetGame_shape (s : Server) (gameID : String) :
    (resetGame s gameID).games = setGame s.games gameID (some NewGame) ∧
      ∃ f, (resetGame s gameID).clients = s.clients.map f ∧ KeepsSlot f ∧
        ∀ c, c.GameID ≠ gameID → f c = c := by
  refine ⟨rfl, _, ?_, keepsSlot_comp (keepsSlot_clear gameID)
    (keepsSlot_resetSend (Server.mk (s.clients.map (fun client =>
      if client.GameID = gameID then { client with PlayAgain := false } else client))
      (setGame s.games gameID (some NewGame)) s.gameLocks) gameID), ?_⟩
  · simp only [resetGame, List.map_map]
    rfl
  · intro c hc
    simp only [if_neg hc]

theorem setGame_same (games : String → Option Game) (gameID : String) (game : Option Game) :
    setGame games gameID game gameID = game := by
  simp [setGame]

theorem setGame_other (games : String → Option Game) (gameID k : String) (game : Option Game)
    (h : k ≠ gameID) : setGame games gameID game k = games k := by
  simp [setGame, h]

/-- The effect of `handleMessage` on the records and on the games. -/
theorem handleMessage_shape (s : Server) (id : Nat) (msg : InMsg) (s' : Server)
    (h : handleMessage s id msg = some s') :
    ∃ client f, clientById s id = some client ∧ s'.clients = s.clients.map f ∧ KeepsSlot f ∧
      (∀ c, c.id ≠ id → c.GameID ≠ client.GameID → f c = c) ∧
      (∀ k, k ≠ client.GameID → s'.games k = s.games k) ∧
      (s'.games client.GameID = s.games client.GameID ∨
        s'.games client.GameID = some NewGame ∨
        ∃ g column g' b, s.games client.GameID = some g ∧ DropPiece g column = some (g', b) ∧
          s'.games client.GameID = some g') := by
  unfold handleMessage at h
  cases hc : clientById s id with
  | none => simp [hc] at h
  | some client =>
    refine ⟨client, ?_⟩
    simp only [hc, getGameLock_games] at h
    cases msg with
    | other =>
      simp only [Option.some.injEq] at h
      subst h
      exact ⟨fun c => c, rfl, by rw [getGameLock_clients, List.map_id'], keepsSlot_id,
        fun _ _ _ => rfl, fun _ _ => by rw [getGameLock_games],
        Or.inl (by rw [getGameLock_games])⟩
    | play_again =>
      simp only at h
      split at h
      · simp only [Option.some.injEq] at h
        subst h
        obtain ⟨hg, f, hf, hk, hframe⟩ :=
          resetGame_shape (markPlayAgain (getGameLock s client.GameID) id) client.GameID
        refine ⟨fun c => f ((fun client =>
            if client.id = id then { client with PlayAgain := true } else client) c), rfl, ?_,
          keepsSlot_comp (keepsSlot_mark id) hk, ?_, ?_, ?_⟩
        · rw [hf]
          simp only [markPlayAgain, getGameLock_clients, List.map_map]
          rfl
        · intro c hid hG
          simp only [if_neg hid]
          exact hframe c hG
        · intro k hk'
          rw [hg, setGame_other _ _ _ _ hk']
          simp only [markPlayAgain, getGameLock_games]
        · right; left
          rw [hg, setGame_same]
      · simp only [Option.some.injEq] at h
        subst h
        refine ⟨_, rfl, ?_, keepsSlot_mark id, ?_, ?_, ?_⟩
        · simp only [markPlayAgain, getGameLock_clients]
        · intro c hid _
          simp only [if_neg hid]
        · intro k _
          simp only [markPlayAgain, getGameLock_games]
        · left
          simp only [markPlayAgain, getGameLock_games]
    | move column =>
      simp only at h
      cases hgame : s.games client.GameID with
      | none => simp [hgame] at h
      | some game =>
        simp only [hgame] at h
        split at h
        · simp only [Option.some.injEq] at h
          subst h
          exact ⟨fun c => c, rfl, by rw [getGameLock_clients, List.map_id'], keepsSlot_id,
            fun _ _ _ => rfl, fun _ _ => by rw [getGameLock_games],
            Or.inl (by rw [getGameLock_games, hgame])⟩
        · cases hdrop : DropPiece game column with
          | none => simp [hdrop] at h
          | some res =>
            obtain ⟨game', success⟩ := res
            simp only [hdrop] at h
            cases success with
            | false =>
              simp only [Bool.false_eq_true, if_false, Option.some.injEq] at h
              subst h
              refine ⟨fun c => c, rfl, by simp only [getGameLock_clients, List.map_id'],
                keepsSlot_id, fun _ _ _ => rfl, ?_, ?_⟩
              · intro k hk
                simp only [getGameLock_games, setGame_other _ _ _ _ hk]
              · right; right
                exact ⟨game, column, game', false, rfl, hdrop, by simp only [setGame_same]⟩
            | true =>
              simp only [if_true, Option.some.injEq] at h
              subst h
              obtain ⟨hg, f, hf, hk, hframe⟩ := broadcastGameState_shape
                (Server.mk (getGameLock s client.GameID).clients
                  (setGame s.games client.GameID (some game'))
                  (getGameLock s client.GameID).gameLocks) client.GameID
              refine ⟨f, rfl, ?_, hk, fun c _ hG => hframe c hG, ?_, ?_⟩
              · rw [hf, getGameLock_clients]
              · intro k hk'
                rw [hg]
                exact setGame_other _ _ _ _ hk'
              · right; right
                exact ⟨game, column, game', true, rfl, hdrop, by rw [hg]; exact setGame_same _ _ _⟩

theorem getGameLock_getPlayers (s : Server) (gameID k : String) :
    getPlayersInGame (getGameLock s gameID) k = getPlayersInGame s k := by
  unfold getPlayersInGame
  rw [getGameLock_clients]

/-- The effect of `handleClientDisconnect` on the records and on the games. -/
theorem handleClientDisconnect_shape (s : Server) (id : Nat) (s' : Server)
    (h : handleClientDisconnect s id = some s') :
    ∃ client f, clientById s id = some client ∧
      s'.clients = (s.clients.filter (fun c => !(c.id == id))).map f ∧ KeepsSlot f ∧
      (∀ c, c.GameID ≠ client.GameID → f c = c) ∧
      (∀ k, k ≠ client.GameID → s'.games k = s.games k) ∧
      (s'.games client.GameID = none ∨ s'.games client.GameID = s.games client.GameID ∨
        (∃ remaining, remaining ∈ s.clients ∧ remaining.GameID = client.GameID ∧
          remaining.id ≠ id ∧
          getClientsInGame (Server.mk (s.clients.filter (fun c => !(c.id == id)))
            s.games s.gameLocks) client.GameID = [remaining] ∧
          s'.games client.GameID = some (Game.mk emptyBoard remaining.Player false 0)) ∨
        (∃ g, s.games client.GameID = some g ∧
          s'.games client.GameID = some { g with CurrentTurn := otherPlayer client.Player })) := by
  unfold handleClientDisconnect at h
  cases hc : clientById s id with
  | none => simp [hc] at h
  | some client =>
    refine ⟨client, ?_⟩
    simp only [hc, getGameLock_games] at h
    have hcl : getClientsInGame (getGameLock (Server.mk
        (s.clients.filter (fun c => !(c.id == id))) s.games s.gameLocks) client.GameID)
        client.GameID
        = getClientsInGame (Server.mk (s.clients.filter (fun c => !(c.id == id)))
            s.games s.gameLocks) client.GameID := by
      unfold getClientsInGame
      rw [getGameLock_clients]
    rw [hcl] at h
    cases hrem : getClientsInGame (Server.mk (s.clients.filter (fun c => !(c.id == id)))
        s.games s.gameLocks) client.GameID with
    | nil =>
      simp only [hrem, Option.some.injEq] at h
      subst h
      refine ⟨fun c => c, rfl, by simp only [getGameLock_clients, List.map_id'], keepsSlot_id,
        fun _ _ => rfl, ?_, Or.inl (setGame_same _ _ _)⟩
      intro k hk
      exact setGame_other _ _ _ _ hk
    | cons remaining rest =>
      cases rest with
      | nil =>
        simp only [hrem] at h
        cases hgame : s.games client.GameID with
        | none => simp [hgame] at h
        | some game =>
          simp only [hgame, Option.some.injEq] at h
          subst h
          obtain ⟨hg, f, hf, hk, hframe⟩ := broadcastGameState_shape
            (Server.mk (getGameLock (Server.mk (s.clients.filter (fun c => !(c.id == id)))
                s.games s.gameLocks) client.GameID).clients
              (setGame s.games client.GameID (some (Game.mk emptyBoard remaining.Player false 0)))
              (getGameLock (Server.mk (s.clients.filter (fun c => !(c.id == id)))
                s.games s.gameLocks) client.GameID).gameLocks) client.GameID
          have hmem : remaining ∈ getClientsInGame (Server.mk
              (s.clients.filter (fun c => !(c.id == id))) s.games s.gameLocks) client.GameID := by
            rw [hrem]; exact List.mem_cons_self _ _
          simp only [getClientsInGame, List.mem_filter, Bool.not_eq_eq_eq_not, Bool.not_true,
            beq_eq_false_iff_ne, ne_eq, beq_iff_eq] at hmem
          refine ⟨f, rfl, ?_, hk, hframe, ?_, Or.inr (Or.inr (Or.inl
            ⟨remaining, hmem.1.1, hmem.2, hmem.1.2, rfl, ?_⟩))⟩
          · rw [hf, getGameLock_clients]
          · intro k hk'
            rw [hg]; exact setGame_other _ _ _ _ hk'
          · rw [hg]; exact setGame_same _ _ _
      | cons second rest' =>
        simp only [hrem] at h
        cases hgame : s.games client.GameID with
        | none => simp [hgame] at h
        | some game =>
          simp only [hgame] at h
          split at h
          · simp only [Option.some.injEq] at h
            subst h
            obtain ⟨hg, f, hf, hk, hframe⟩ := broadcastGameState_shape
              (Server.mk (getGameLock (Server.mk (s.clients.filter (fun c => !(c.id == id)))
                  s.games s.gameLocks) client.GameID).clients
                (setGame s.games client.GameID
                  (some { game with CurrentTurn := otherPlayer client.Player }))
                (getGameLock (Server.mk (s.clients.filter (fun c => !(c.id == id)))
                  s.games s.gameLocks) client.GameID).gameLocks) client.GameID
            refine ⟨f, rfl, ?_, hk, hframe, ?_, Or.inr (Or.inr (Or.inr ⟨game, rfl, ?_⟩))⟩
            · rw [hf, getGameLock_clients]
            · intro k hk'
              rw [hg]; exact setGame_other _ _ _ _ hk'
            · rw [hg]; exact setGame_same _ _ _
          · simp only [Option.some.injEq] at h
            subst h
            refine ⟨fun c => c, rfl, by simp only [getGameLock_clients, List.map_id'],
              keepsSlot_id, fun _ _ => rfl, fun _ _ => by rw [getGameLock_games],
              Or.inr (Or.inl (by rw [getGameLock_games, hgame]))⟩

/-- The effect of `handleConnections` on the records and on the games. -/
theorem handleConnections_shape (s : Server) (id : Nat) (query : String) :
    ((handleConnections s id query).2 = false ∧
        2 ≤ (getPlayersInGame s (sessionOf query)).length ∧
        (handleConnections s id query).1.clients = s.clients ∧
        (handleConnections s id query).1.games = s.games) ∨
      ((handleConnections s id query).2 = true ∧
        ∃ player : Int,
          ((getPlayersInGame s (sessionOf query) = [] ∧ player = 1) ∨
            ∃ p, getPlayersInGame s (sessionOf query) = [p] ∧ player = otherPlayer p) ∧
          (handleConnections s id query).1.clients
            = s.clients ++ [Client.mk id (sessionOf query) player false
                [OutMsg.init player,
                 OutMsg.game_state ((handleConnections s id query).1.games (sessionOf query))]] ∧
          (∀ k, k ≠ sessionOf query → (handleConnections s id query).1.games k = s.games k) ∧
          ((s.games (sessionOf query) ≠ none ∧
              (handleConnections s id query).1.games (sessionOf query)
                = s.games (sessionOf query)) ∨
            (s.games (sessionOf query) = none ∧
              (handleConnections s id query).1.games (sessionOf query) = some NewGame))) := by
  unfold handleConnections
  simp only [getGameLock_getPlayers, getGameLock_clients, getGameLock_games]
  show _ ∨ _
  rw [show (if query = "" then "game-1" else query) = sessionOf query from rfl]
  cases hp : getPlayersInGame s (sessionOf query) with
  | nil =>
    right
    refine ⟨rfl, 1, Or.inl ⟨rfl, rfl⟩, rfl, ?_, ?_⟩
    · intro k hk
      cases hg : s.games (sessionOf query) with
      | none => exact setGame_other _ _ _ _ hk
      | some g => rfl
    · cases hg : s.games (sessionOf query) with
      | none => right; exact ⟨rfl, by simp only [hg, setGame_same]⟩
      | some g => left; exact ⟨by simp, by simp only [hg]⟩
  | cons p rest =>
    cases rest with
    | nil =>
      right
      refine ⟨rfl, otherPlayer p, Or.inr ⟨p, rfl, rfl⟩, rfl, ?_, ?_⟩
      · intro k hk
        cases hg : s.games (sessionOf query) with
        | none => exact setGame_other _ _ _ _ hk
        | some g => rfl
      · cases hg : s.games (sessionOf query) with
        | none => right; exact ⟨rfl, by simp only [hg, setGame_same]⟩
        | some g => left; exact ⟨by simp, by simp only [hg]⟩
    | cons q rest' =>
      left
      refine ⟨rfl, by simp, ?_, ?_⟩
      · simp only [getGameLock_clients]
      · simp only [getGameLock_games]

theorem keepsSlot_filter_session (f : Client → Client) (hf : KeepsSlot f) (k : String)
    (l : List Client) :
    (l.map f).filter (fun client => client.GameID == k)
      = (l.filter (fun client => client.GameID == k)).map f := by
  rw [List.filter_map]
  congr 1
  apply List.filter_congr
  intro c _
  simp only [Function.comp, (hf c).2.1]

theorem keepsSlot_players (f : Client → Client) (hf : KeepsSlot f) (k : String)
    (l : List Client) :
    ((l.map f).filter (fun client => client.GameID == k)).map (fun client => client.Player)
      = (l.filter (fun client => client.GameID == k)).map (fun client => client.Player) := by
  rw [keepsSlot_filter_session f hf, List.map_map]
  apply List.map_congr_left
  intro c _
  exact (hf c).2.2

theorem keepsSlot_ids (f : Client → Client) (hf : KeepsSlot f) (l : List Client) :
    (l.map f).map (fun client => client.id) = l.map (fun client => client.id) := by
  rw [List.map_map]
  apply List.map_congr_left
  intro c _
  exact (hf c).1

/-- Every sublist of an admissible slot list is admissible. -/
theorem slots_sublist (l l' : List Int)
    (hl : l ∈ ([[], [1], [2], [1, 2], [2, 1]] : List (List Int))) (hsub : l'.Sublist l) :
    l' ∈ ([[], [1], [2], [1, 2], [2, 1]] : List (List Int)) := by
  have hmem := List.mem_sublists.2 hsub
  simp only [List.mem_cons, List.mem_singleton, List.mem_nil_iff, or_false] at hl
  rcases hl with rfl | rfl | rfl | rfl | rfl
  · simp [List.sublists] at hmem
    simp [hmem]
  · simp [List.sublists] at hmem
    rcases hmem with h | h <;> simp [h]
  · simp [List.sublists] at hmem
    rcases hmem with h | h <;> simp [h]
  · simp [List.sublists] at hmem
    rcases hmem with h | h | h | h <;> simp [h]
  · simp [List.sublists] at hmem
    rcases hmem with h | h | h | h <;> simp [h]

theorem clientById_mem (s : Server) (id : Nat) (client : Client)
    (h : clientById s id = some client) : client ∈ s.clients ∧ client.id = id := by
  unfold clientById at h
  have h1 := List.mem_of_find?_eq_some h
  have h2 := List.find?_some h
  simp only [beq_iff_eq] at h2
  exact ⟨h1, h2⟩

/-- One event keeps the identities of the registered clients distinct. -/
theorem stepServer_distinctIds (s s' : Server) (e : Event) (hd : DistinctIds s)
    (h : stepServer s e = some s') : DistinctIds s' := by
  unfold DistinctIds at hd ⊢
  cases e with
  | connect id query =>
    simp only [stepServer] at h
    split at h
    · rename_i hfresh
      simp only [Option.some.injEq] at h
      subst h
      rcases handleConnections_shape s id query with ⟨_, _, hcl, _⟩ | ⟨_, player, _, hcl, _⟩
      · rw [hcl]; exact hd
      · rw [hcl, List.map_append, List.nodup_append]
        refine ⟨hd, List.nodup_singleton _, ?_⟩
        intro x hx hx'
        simp only [List.map_cons, List.map_nil, List.mem_singleton] at hx'
        subst hx'
        rw [List.mem_map] at hx
        obtain ⟨c, hc, hcid⟩ := hx
        rw [List.all_eq_true] at hfresh
        have := hfresh c hc
        simp only [Bool.not_eq_eq_eq_not, Bool.not_true, beq_eq_false_iff_ne, ne_eq] at this
        exact this hcid
    · simp at h
  | message id msg =>
    obtain ⟨_, f, _, hcl, hk, _⟩ := handleMessage_shape s id msg s' h
    rw [hcl, keepsSlot_ids f hk]
    exact hd
  | disconnect id =>
    obtain ⟨_, f, _, hcl, hk, _⟩ := handleClientDisconnect_shape s id s' h
    rw [hcl, keepsSlot_ids f hk]
    exact hd.sublist (List.Sublist.map _ (List.filter_sublist _))

theorem reachable_distinctIds (s : Server) (h : ServerReachable s) : DistinctIds s := by
  induction h with
  | init => exact List.nodup_nil
  | step e _ hstep ih => exact stepServer_distinctIds _ _ e ih hstep

/-- One event keeps the slots of every session admissible. -/
theorem stepServer_slotsOK (s s' : Server) (e : Event) (hs : SlotsOK s)
    (h : stepServer s e = some s') : SlotsOK s' := by
  intro k
  cases e with
  | connect id query =>
    simp only [stepServer] at h
    split at h
    · simp only [Option.some.injEq] at h
      subst h
      rcases handleConnections_shape s id query with ⟨_, _, hcl, _⟩ | ⟨_, player, hpl, hcl, _⟩
      · unfold getPlayersInGame
        rw [hcl]; exact hs k
      · unfold getPlayersInGame
        rw [hcl, List.filter_append, List.map_append]
        by_cases hk : sessionOf query = k
        · subst hk
          have hold := hs (sessionOf query)
          rcases hpl with ⟨hnil, hp⟩ | ⟨p, hone, hp⟩
          · unfold getPlayersInGame at hnil
            rw [hnil, hp]
            simp
          · rw [hone] at hold
            unfold getPlayersInGame at hone
            rw [hone, hp]
            simp only [List.mem_cons, List.cons.injEq, List.mem_singleton, List.mem_nil_iff,
              or_false] at hold
            rcases hold with h0 | h1 | h2 | h3 | h4
            · simp at h0
            · simp only [and_true] at h1; subst h1; simp [otherPlayer]
            · simp only [and_true] at h2; subst h2; simp [otherPlayer]
            · simp at h3
            · simp at h4
        · have : List.filter (fun client => client.GameID == k)
              [Client.mk id (sessionOf query) player false
                [OutMsg.init player,
                 OutMsg.game_state ((handleConnections s id query).1.games (sessionOf query))]]
              = [] := by
            simp [hk]
          rw [this, List.map_nil, List.append_nil]
          exact hs k
    · simp at h
  | message id msg =>
    obtain ⟨_, f, _, hcl, hk, _⟩ := handleMessage_shape s id msg s' h
    unfold getPlayersInGame
    rw [hcl, keepsSlot_players f hk]
    exact hs k
  | disconnect id =>
    obtain ⟨_, f, _, hcl, hk, _⟩ := handleClientDisconnect_shape s id s' h
    unfold getPlayersInGame
    rw [hcl, keepsSlot_players f hk]
    apply slots_sublist _ _ (hs k)
    exact List.Sublist.map _ (List.Sublist.filter _ (List.filter_sublist _))

theorem reachable_slotsOK (s : Server) (h : ServerReachable s) : SlotsOK s := by
  induction h with
  | init => intro k; simp [getPlayersInGame, emptyServer]
  | step e _ hstep ih => exact stepServer_slotsOK _ _ e ih hstep

theorem slotsOK_player (s : Server) (hs : SlotsOK s) (c : Client) (hc : c ∈ s.clients) :
    c.Player = 1 ∨ c.Player = 2 := by
  have hmem : c.Player ∈ getPlayersInGame s c.GameID := by
    unfold getPlayersInGame
    rw [List.mem_map]
    exact ⟨c, by simp [hc], rfl⟩
  have hok := hs c.GameID
  simp only [List.mem_cons, List.mem_singleton, List.mem_nil_iff, or_false] at hok
  rcases hok with h | h | h | h | h <;> rw [h] at hmem <;> simp at hmem <;> tauto

theorem otherPlayer_slot (p : Int) : otherPlayer p = 1 ∨ otherPlayer p = 2 := by
  unfold otherPlayer; split
  · right; rfl
  · left; rfl

/-- One event keeps every stored game well-formed. -/
theorem stepServer_gamesWF (s s' : Server) (e : Event) (hs : SlotsOK s)
    (hw : ∀ k g, s.games k = some g → WellFormed g)
    (h : stepServer s e = some s') : ∀ k g, s'.games k = some g → WellFormed g := by
  intro k g hg
  cases e with
  | connect id query =>
    simp only [stepServer] at h
    split at h
    · simp only [Option.some.injEq] at h
      subst h
      rcases handleConnections_shape s id query with ⟨_, _, _, hgames⟩ | ⟨_, _, _, _, hother, hX⟩
      · rw [hgames] at hg; exact hw k g hg
      · by_cases hk : k = sessionOf query
        · subst hk
          rcases hX with ⟨_, hsame⟩ | ⟨_, hnew⟩
          · rw [hsame] at hg; exact hw _ g hg
          · rw [hnew] at hg
            simp only [Option.some.injEq] at hg
            subst hg; exact wellFormed_NewGame
        · rw [hother k hk] at hg; exact hw k g hg
    · simp at h
  | message id msg =>
    obtain ⟨client, _, _, _, _, _, hother, hX⟩ := handleMessage_shape s id msg s' h
    by_cases hk : k = client.GameID
    · subst hk
      rcases hX with hsame | hnew | ⟨g0, column, g1, b, hg0, hdrop, hg1⟩
      · rw [hsame] at hg; exact hw _ g hg
      · rw [hnew] at hg
        simp only [Option.some.injEq] at hg
        subst hg; exact wellFormed_NewGame
      · rw [hg1] at hg
        simp only [Option.some.injEq] at hg
        subst hg
        exact DropPiece_wellFormed g0 column g1 b (hw _ g0 hg0) hdrop
    · rw [hother k hk] at hg; exact hw k g hg
  | disconnect id =>
    obtain ⟨client, _, _, _, _, _, hother, hX⟩ := handleClientDisconnect_shape s id s' h
    by_cases hk : k = client.GameID
    · subst hk
      rcases hX with hnone | hsame | ⟨remaining, hmem, _, _, _, hreset⟩ | ⟨g0, hg0, hturn⟩
      · rw [hnone] at hg; simp at hg
      · rw [hsame] at hg; exact hw _ g hg
      · rw [hreset] at hg
        simp only [Option.some.injEq] at hg
        subst hg
        exact ⟨fun _ _ => Or.inl rfl, slotsOK_player s hs remaining hmem, Or.inl rfl,
          fun h => absurd rfl h⟩
      · rw [hturn] at hg
        simp only [Option.some.injEq] at hg
        subst hg
        obtain ⟨h1, _, h3, h4⟩ := hw _ g0 hg0
        exact ⟨h1, otherPlayer_slot _, h3, h4⟩
    · rw [hother k hk] at hg; exact hw k g hg

theorem reachable_gamesWF (s : Server) (h : ServerReachable s) :
    ∀ k g, s.games k = some g → WellFormed g := by
  induction h with
  | init => intro k g hg; simp [emptyServer] at hg
  | step e hprev hstep ih => exact stepServer_gamesWF _ _ e (reachable_slotsOK _ hprev) ih hstep

theorem reachable_runServer (s : Server) (hs : ServerReachable s) :
    ∀ (events : List Event) (s' : Server), runServer s events = some s' → ServerReachable s' := by
  intro events
  induction events generalizing s with
  | nil => intro s' h; simp only [runServer, Option.some.injEq] at h; exact h ▸ hs
  | cons e rest ih =>
    intro s' h
    rw [runServer] at h
    cases hstep : stepServer s e with
    | none => simp [hstep] at h
    | some s1 =>
      simp only [hstep] at h
      exact ih s1 (ServerReachable.step e hs hstep) s' h

theorem slots_nodup (l : List Int)
    (hl : l ∈ ([[], [1], [2], [1, 2], [2, 1]] : List (List Int))) : l.Nodup := by
  simp only [List.mem_cons, List.mem_singleton, List.mem_nil_iff, or_false] at hl
  rcases hl with rfl | rfl | rfl | rfl | rfl <;> decide

theorem slots_length (l : List Int)
    (hl : l ∈ ([[], [1], [2], [1, 2], [2, 1]] : List (List Int))) : l.length ≤ 2 := by
  simp only [List.mem_cons, List.mem_singleton, List.mem_nil_iff, or_false] at hl
  rcases hl with rfl | rfl | rfl | rfl | rfl <;> decide

theorem getPlayers_eq_map (s : Server) (k : String) :
    getPlayersInGame s k = (getClientsInGame s k).map (fun client => client.Player) := rfl

/-- C11: in every reachable server state each session has at most two bound
connections, every bound connection has `Player` in {1,2}, and two connections
of one session have different `Player` values; a connection to a session with
no bound connection gets slot 1, and one to a session with one bound connection
gets the slot that connection does not hold. -/
theorem slot_assignment_invariant (s : Server) (h : ServerReachable s) :
    (∀ k, (getClientsInGame s k).length ≤ 2) ∧
      (∀ c ∈ s.clients, c.Player = 1 ∨ c.Player = 2) ∧
      (∀ c ∈ s.clients, ∀ d ∈ s.clients, c.GameID = d.GameID → c.Player = d.Player → c = d) ∧
      (∀ id query, getClientsInGame s (sessionOf query) = [] →
        ∃ client, (handleConnections s id query).1.clients = s.clients ++ [client] ∧
          client.id = id ∧ client.GameID = sessionOf query ∧ client.Player = 1) ∧
      (∀ id query c, getClientsInGame s (sessionOf query) = [c] →
        ∃ client, (handleConnections s id query).1.clients = s.clients ++ [client] ∧
          client.id = id ∧ client.GameID = sessionOf query ∧
          client.Player ≠ c.Player ∧ (client.Player = 1 ∨ client.Player = 2)) := by
  have hs := reachable_slotsOK s h
  refine ⟨?_, slotsOK_player s hs, ?_, ?_, ?_⟩
  · intro k
    have := slots_length _ (hs k)
    rw [getPlayers_eq_map, List.length_map] at this
    exact this
  · intro c hc d hd hG hP
    have hnd := slots_nodup _ (hs c.GameID)
    rw [getPlayers_eq_map] at hnd
    apply List.inj_on_of_nodup_map hnd _ _ hP
    · simp [getClientsInGame, hc]
    · simp [getClientsInGame, hd, hG]
  · intro id query hnil
    rcases handleConnections_shape s id query with ⟨_, hlen, _, _⟩ | ⟨_, player, hpl, hcl, _⟩
    · rw [getPlayers_eq_map, hnil] at hlen
      simp at hlen
    · rcases hpl with ⟨_, hp⟩ | ⟨p, hone, _⟩
      · exact ⟨_, hcl, rfl, rfl, hp⟩
      · rw [getPlayers_eq_map, hnil] at hone
        simp at hone
  · intro id query c hone
    rcases handleConnections_shape s id query with ⟨_, hlen, _, _⟩ | ⟨_, player, hpl, hcl, _⟩
    · rw [getPlayers_eq_map, hone] at hlen
      simp at hlen
    · rcases hpl with ⟨hnil, _⟩ | ⟨p, hp, hplayer⟩
      · rw [getPlayers_eq_map, hone] at hnil
        simp at hnil
      · rw [getPlayers_eq_map, hone] at hp
        simp only [List.map_cons, List.map_nil, List.cons.injEq, and_true] at hp
        refine ⟨_, hcl, rfl, rfl, ?_, ?_⟩
        · show player ≠ c.Player
          rw [hplayer, hp]
          unfold otherPlayer
          split
          · rename_i h1; rw [h1]; decide
          · rename_i h1; exact fun h2 => h1 h2.symm
        · show player = 1 ∨ player = 2
          rw [hplayer]; exact otherPlayer_slot p

/-- C12: a connection attempt to a session that already has two bound
connections is refused, and the set of client records (slots, `PlayAgain`
flags and `Send` queues included) and the games are unchanged. -/
theorem capacity_rejection (s : Server) (id : Nat) (query : String)
    (hfull : (getClientsInGame s (sessionOf query)).length = 2) :
    (handleConnections s id query).2 = false ∧
      (handleConnections s id query).1.clients = s.clients ∧
      (handleConnections s id query).1.games = s.games := by
  rcases handleConnections_shape s id query with ⟨h1, _, h2, h3⟩ | ⟨_, _, hpl, _⟩
  · exact ⟨h1, h2, h3⟩
  · exfalso
    rcases hpl with ⟨hnil, _⟩ | ⟨p, hone, _⟩
    · rw [getPlayers_eq_map] at hnil
      have := congrArg List.length hnil
      rw [List.length_map, hfull] at this
      simp at this
    · rw [getPlayers_eq_map] at hone
      have := congrArg List.length hone
      rw [List.length_map, hfull] at this
      simp at this

/-- C14: every game state reachable from `NewGame()` by `DropPiece` calls, and
every game stored in a reachable server state (so also after a rematch or a
disconnect reset), has cells in {0,1,2}, `CurrentTurn` in {1,2}, `Winner` in
{0,1,2}, and `Winner != 0` only when `IsOver`. -/
theorem state_well_formed :
    (∀ g : Game, Reachable g → WellFormed g) ∧
      (∀ s : Server, ServerReachable s → ∀ k g, s.games k = some g → WellFormed g) :=
  ⟨reachable_wellFormed, reachable_gamesWF⟩

/-- C20: a message or a disconnect of a connection bound to one session leaves
every other session alone: its game, its bound connections, their `PlayAgain`
flags and their `Send` queues. -/
theorem session_isolation (s : Server) (hd : DistinctIds s) (id : Nat) (client : Client)
    (hc : clientById s id = some client) (other : String) (hne : client.GameID ≠ other) :
    (∀ msg s', handleMessage s id msg = some s' →
        s'.games other = s.games other ∧
          getClientsInGame s' other = getClientsInGame s other) ∧
      (∀ s', handleClientDisconnect s id = some s' →
        s'.games other = s.games other ∧
          getClientsInGame s' other = getClientsInGame s other) := by
  obtain ⟨hmem, hid⟩ := clientById_mem s id client hc
  have hforeign : ∀ c ∈ s.clients, c.GameID = other → c.id ≠ id := by
    intro c hcm hG hcid
    have := eq_of_id_eq s hd hcm hmem (hcid.trans hid.symm)
    rw [this] at hG
    exact hne hG
  constructor
  · intro msg s' h
    obtain ⟨client', f, hc', hcl, hk, hframe, hother, _⟩ := handleMessage_shape s id msg s' h
    rw [hc] at hc'
    simp only [Option.some.injEq] at hc'
    subst hc'
    refine ⟨hother other (fun h => hne h.symm), ?_⟩
    unfold getClientsInGame
    rw [hcl, keepsSlot_filter_session f hk]
    conv_rhs => rw [← List.map_id (List.filter (fun client => client.GameID == other) s.clients)]
    apply List.map_congr_left
    intro c hcm
    simp only [List.mem_filter, beq_iff_eq] at hcm
    rw [id_eq]
    exact hframe c (hforeign c hcm.1 hcm.2) (fun h => hne (h.symm.trans hcm.2))
  · intro s' h
    obtain ⟨client', f, hc', hcl, hk, hframe, hother, _⟩ := handleClientDisconnect_shape s id s' h
    rw [hc] at hc'
    simp only [Option.some.injEq] at hc'
    subst hc'
    refine ⟨hother other (fun h => hne h.symm), ?_⟩
    unfold getClientsInGame
    rw [hcl, keepsSlot_filter_session f hk, List.filter_filter]
    have hfilt : List.filter (fun a => (a.GameID == other) && !(a.id == id)) s.clients
        = List.filter (fun client => client.GameID == other) s.clients := by
      apply List.filter_congr
      intro c hcm
      by_cases hG : c.GameID = other
      · have := hforeign c hcm hG
        simp [hG, this]
      · simp [hG]
    rw [hfilt]
    conv_rhs => rw [← List.map_id (List.filter (fun client => client.GameID == other) s.clients)]
    apply List.map_congr_left
    intro c hcm
    simp only [List.mem_filter, beq_iff_eq] at hcm
    rw [id_eq]
    exact hframe c (fun h => hne (h.symm.trans hcm.2))

theorem reachable_afterEvents (events : List Event) : ServerReachable (afterEvents events) := by
  unfold afterEvents
  cases h : runServer emptyServer events with
  | none => exact ServerReachable.init
  | some s => exact reachable_runServer emptyServer ServerReachable.init events s h

theorem reachableLast_playMovesLast (g : Game) (last : Option Int) (hg : ReachableLast g last) :
    ∀ (cols : List Int) (g' : Game) (last' : Option Int),
      playMovesLast g last cols = some (g', last') → ReachableLast g' last' := by
  intro cols
  induction cols generalizing g last with
  | nil =>
    intro g' last' h
    simp only [playMovesLast, Option.some.injEq, Prod.mk.injEq] at h
    obtain ⟨rfl, rfl⟩ := h
    exact hg
  | cons column rest ih =>
    intro g' last' h
    rw [playMovesLast] at h
    cases hd : DropPiece g column with
    | none => simp [hd] at h
    | some res =>
      obtain ⟨g1, b⟩ := res
      cases b with
      | true =>
        simp only [hd] at h
        exact ih g1 _ (ReachableLast.applied column hg hd) g' last' h
      | false =>
        simp only [hd] at h
        exact ih g1 _ (ReachableLast.rejected column hg hd) g' last' h

theorem slot_assignment_invariant_witness :
    ∃ client, (handleConnections (afterEvents [Event.connect 1 "", Event.connect 2 "",
          Event.disconnect 1]) 3 "").1.clients
        = (afterEvents [Event.connect 1 "", Event.connect 2 "", Event.disconnect 1]).clients
            ++ [client] ∧
      client.id = 3 ∧ client.GameID = sessionOf "" ∧
      client.Player ≠ 2 ∧ (client.Player = 1 ∨ client.Player = 2) :=
  (slot_assignment_invariant
      (afterEvents [Event.connect 1 "", Event.connect 2 "", Event.disconnect 1])
      (reachable_afterEvents _)).2.2.2.2 3 ""
    ((getClientsInGame (afterEvents [Event.connect 1 "", Event.connect 2 "",
      Event.disconnect 1]) "game-1").headD clientTwo) rfl

theorem capacity_rejection_witness :
    (handleConnections (afterEvents lobby) 3 "").2 = false ∧
      (handleConnections (afterEvents lobby) 3 "").1.clients = (afterEvents lobby).clients ∧
      (handleConnections (afterEvents lobby) 3 "").1.games = (afterEvents lobby).games :=
  capacity_rejection (afterEvents lobby) 3 "" (by decide)

theorem state_well_formed_witness :
    WellFormed (afterMoves diagonalGame) ∧
      ∀ k g, (afterEvents staleVote).games k = some g → WellFormed g :=
  ⟨state_well_formed.1 _ (reachable_afterMoves diagonalGame),
    state_well_formed.2 _ (reachable_afterEvents staleVote)⟩

/-- C16 fails on the code: client 1 votes while client 2 has not; client 2
disconnects, which clears the board but not the vote; client 3 takes the free
slot and client 1 drops a piece. The single `play_again` of client 3 then
finds both flags set and replaces the game in progress by `NewGame()`. -/
theorem stale_vote_resets_game :
    (getClientsInGame (afterEvents (staleVote.take 3)) "game-1").map
        (fun c => (c.id, c.PlayAgain)) = [(1, true), (2, false)] ∧
      (getClientsInGame (afterEvents (staleVote.take 4)) "game-1").map
        (fun c => (c.id, c.PlayAgain)) = [(1, true)] ∧
      (getClientsInGame (afterEvents staleVote) "game-1").map
        (fun c => (c.id, c.Player, c.PlayAgain)) = [(1, 1, true), (3, 2, false)] ∧
      ((afterEvents staleVote).games "game-1").map
        (fun g => (g.Board 5 3, g.CurrentTurn, g.IsOver)) = some (1, 2, false) ∧
      (handleMessage (afterEvents staleVote) 3 InMsg.play_again).map
        (fun s => s.games "game-1") = some (some NewGame) :=
  ⟨by decide, by decide, by decide, by decide, rfl⟩

theorem win_detection_sound_witness :
    hasFour diagonalEnd.1.Board 1 ∧ diagonalEnd.2 = some 1 :=
  win_detection_sound diagonalEnd.1 diagonalEnd.2
    (reachableLast_playMovesLast NewGame none ReachableLast.init diagonalGame _ _ rfl)
    1 (by decide) (by decide)

theorem draw_only_on_full_board_witness : (afterMoves drawnGame).Board 0 3 ≠ 0 :=
  (draw_only_on_full_board (afterMoves drawnGame) (reachable_afterMoves drawnGame)).1
    ⟨by decide, by decide⟩ 0 3

theorem counts_follow_turn_witness :
    countCells (afterMoves [3, 3, 4]).Board 1 = countCells (afterMoves [3, 3, 4]).Board 2 + 1 :=
  (counts_follow_turn (afterMoves [3, 3, 4]) (reachable_afterMoves [3, 3, 4])).2 (by decide)

theorem session_isolation_witness :
    ((handleMessage (afterEvents twoSessions) 1 (InMsg.move 3)).getD emptyServer).games "blue"
        = (afterEvents twoSessions).games "blue" ∧
      getClientsInGame ((handleMessage (afterEvents twoSessions) 1 (InMsg.move 3)).getD
          emptyServer) "blue"
        = getClientsInGame (afterEvents twoSessions) "blue" :=
  (session_isolation (afterEvents twoSessions) (reachable_distinctIds _ (reachable_afterEvents _))
    1 ((clientById (afterEvents twoSessions) 1).getD clientOne) rfl "blue" (by decide)).1
    (InMsg.move 3) _ rfl

/-! ## Locking: lemmas and claim -/

theorem Run.note_server (r : Run) (l : Nat) (a : Access) : (r.note l a).server = r.server := rfl
theorem Run.note_held (r : Run) (l : Nat) (a : Access) : (r.note l a).held = r.held := rfl
theorem Run.note_log (r : Run) (l : Nat) (a : Access) :
    (r.note l a).log = r.log ++ [Entry.mk l a r.held] := rfl
theorem Run.lock_server (r : Run) (g : String) : (r.lock g).server = r.server := rfl
theorem Run.lock_held (r : Run) (g : String) : (r.lock g).held = g :: r.held := rfl
theorem Run.lock_log (r : Run) (g : String) : (r.lock g).log = r.log := rfl
theorem Run.unlock_server (r : Run) (g : String) : (r.unlock g).server = r.server := rfl
theorem Run.unlock_log (r : Run) (g : String) : (r.unlock g).log = r.log := rfl
theorem Run.update_server (r : Run) (s : Server) : (r.update s).server = s := rfl
theorem Run.update_held (r : Run) (s : Server) : (r.update s).held = r.held := rfl
theorem Run.update_log (r : Run) (s : Server) : (r.update s).log = r.log := rfl

theorem getGameLockRun_server (r : Run) (l : Nat) (g : String) :
    (getGameLockRun r l g).server = getGameLock r.server g := by
  unfold getGameLockRun getGameLock
  simp only [Run.note_server]
  split <;> rfl

theorem getGameLockRun_held (r : Run) (l : Nat) (g : String) :
    (getGameLockRun r l g).held = r.held := by
  unfold getGameLockRun
  simp only [Run.note_server]
  split <;> rfl

theorem broadcastGameStateRun_server (r : Run) (l : Nat) (g : String) :
    (broadcastGameStateRun r l g).server = broadcastGameState r.server g := rfl

theorem broadcastGameStateRun_held (r : Run) (l : Nat) (g : String) :
    (broadcastGameStateRun r l g).held = r.held := rfl

theorem resetGameRun_server (r : Run) (l : Nat) (g : String) :
    (resetGameRun r l g).server = resetGame r.server g := rfl

theorem resetGameRun_held (r : Run) (l : Nat) (g : String) :
    (resetGameRun r l g).held = r.held := rfl

/-- The logged `handleMessage` computes what `handleMessage` computes. -/
theorem handleMessageRun_server (r : Run) (id : Nat) (msg : InMsg) :
    (handleMessageRun r id msg).map Run.server = handleMessage r.server id msg := by
  unfold handleMessageRun handleMessage
  cases hc : clientById r.server id with
  | none => rfl
  | some client =>
    cases msg with
    | other =>
      simp only [Option.map_some', Run.unlock_server, Run.note_server, Run.lock_server,
        getGameLockRun_server]
    | play_again =>
      simp only [Run.note_server, Run.lock_server, getGameLockRun_server, Run.update_server]
      split <;>
        simp only [Option.map_some', Run.unlock_server, Run.note_server, Run.update_server,
          resetGameRun_server]
    | move column =>
      simp only [Run.note_server, Run.lock_server, getGameLockRun_server, getGameLock_games]
      cases hg : r.server.games client.GameID with
      | none => rfl
      | some game =>
        simp only
        split
        · simp only [Option.map_some', Run.unlock_server, Run.note_server, Run.lock_server,
            getGameLockRun_server]
        · cases hd : DropPiece game column with
          | none => rfl
          | some res =>
            obtain ⟨game', success⟩ := res
            cases success
            · simp only [Bool.false_eq_true, if_false, Option.map_some', Run.unlock_server,
                Run.update_server, Run.note_server, Run.lock_server, getGameLockRun_server,
                getGameLock_games]
            · simp only [if_true, Option.map_some', Run.unlock_server,
                broadcastGameStateRun_server, Run.update_server, Run.note_server,
                Run.lock_server, getGameLockRun_server, getGameLock_games]

/-- The logged `handleClientDisconnect` computes what `handleClientDisconnect`
computes. -/
theorem handleClientDisconnectRun_server (r : Run) (id : Nat) :
    (handleClientDisconnectRun r id).map Run.server = handleClientDisconnect r.server id := by
  unfold handleClientDisconnectRun handleClientDisconnect
  cases hc : clientById r.server id with
  | none => rfl
  | some client =>
    simp only [Run.note_server, Run.lock_server, getGameLockRun_server, getGameLock_games,
      Run.update_server]
    cases hrem : getClientsInGame (getGameLock
        (Server.mk (r.server.clients.filter (fun c => !(c.id == id))) r.server.games
          r.server.gameLocks) client.GameID) client.GameID with
    | nil =>
      simp only [Option.map_some', Run.unlock_server, Run.update_server, Run.note_server,
        Run.lock_server, getGameLockRun_server, getGameLock_games]
    | cons c1 rest =>
      cases rest with
      | nil =>
        cases hg : r.server.games client.GameID with
        | none => rfl
        | some game =>
          simp only [Option.map_some', Run.unlock_server, broadcastGameStateRun_server,
            Run.update_server, Run.note_server, Run.lock_server, getGameLockRun_server,
            getGameLock_games]
      | cons c2 rest2 =>
        cases hg : r.server.games client.GameID with
        | none => rfl
        | some game =>
          simp only
          split <;>
            simp only [Option.map_some', Run.unlock_server, broadcastGameStateRun_server,
              Run.update_server, Run.note_server, Run.lock_server, getGameLockRun_server,
              getGameLock_games]

theorem getGameLockRun_log (r : Run) (l : Nat) (g : String) :
    (getGameLockRun r l g).log
      = r.log ++ (if r.server.gameLocks g then [Entry.mk l Access.locksRead r.held]
          else [Entry.mk l Access.locksRead r.held, Entry.mk l Access.locksWrite r.held]) := by
  unfold getGameLockRun
  simp only [Run.note_server]
  split
  · rfl
  · simp only [Run.update_log, Run.note_log, Run.note_held, List.append_assoc,
      List.singleton_append]

theorem broadcastGameStateRun_log (r : Run) (l : Nat) (g : String) :
    (broadcastGameStateRun r l g).log
      = r.log ++ [Entry.mk l Access.gameRead r.held, Entry.mk l Access.clientsRead r.held] := by
  simp only [broadcastGameStateRun, Run.update_log, Run.note_log, Run.note_held,
    List.append_assoc, List.singleton_append]

theorem resetGameRun_log (r : Run) (l : Nat) (g : String) :
    (resetGameRun r l g).log
      = r.log ++ [Entry.mk l Access.gamesWrite r.held, Entry.mk l Access.clientsRead r.held,
          Entry.mk l Access.clientsWrite r.held, Entry.mk l Access.clientsRead r.held,
          Entry.mk l Access.gameRead r.held] := by
  simp [resetGameRun, Run.update, Run.note]

theorem Run.unlock_held_single (r : Run) (g : String) (h : r.held = [g]) :
    (r.unlock g).held = [] := by
  simp [Run.unlock, h]

/-- Every access of `handleMessage` is in `getGameLock` or inside the critical
section. -/
theorem handleMessageRun_shape (s : Server) (id : Nat) (msg : InMsg) (client : Client)
    (r : Run) (hc : clientById s id = some client)
    (h : handleMessageRun (Run.start s) id msg = some r) :
    ∀ e ∈ r.log, e.held = [client.GameID] ∨
      (e.held = [] ∧ e.line = 114 ∧
        (e.access = Access.locksRead ∨ e.access = Access.locksWrite)) := by
  unfold handleMessageRun at h
  have hc' : clientById (Run.start s).server id = some client := hc
  simp only [hc'] at h
  cases msg with
  | other =>
    simp only [Option.some.injEq] at h
    subst h
    intro e he
    simp only [Run.unlock_log, Run.note_log, Run.note_held, Run.lock_log, Run.lock_held,
      getGameLockRun_log, getGameLockRun_held, Run.start, List.nil_append] at he
    split at he <;> simp at he <;> casesm* _ ∨ _ <;> subst_vars <;> simp
  | play_again =>
    simp only at h
    split at h <;>
    · simp only [Option.some.injEq] at h
      subst h
      intro e he
      simp only [Run.unlock_log, Run.note_log, Run.note_held, Run.lock_log, Run.lock_held,
        Run.update_log, Run.update_held, resetGameRun_log,
        getGameLockRun_log, getGameLockRun_held, Run.start, List.nil_append] at he
      split at he <;> simp at he <;> casesm* _ ∨ _ <;> subst_vars <;> simp
  | move column =>
    simp only [Run.note_server, Run.lock_server, getGameLockRun_server, getGameLock_games] at h
    cases hg : (Run.start s).server.games client.GameID with
    | none => simp [hg] at h
    | some game =>
      simp only [hg] at h
      split at h
      · simp only [Option.some.injEq] at h
        subst h
        intro e he
        simp only [Run.unlock_log, Run.note_log, Run.note_held, Run.lock_log, Run.lock_held,
          getGameLockRun_log, getGameLockRun_held, Run.start, List.nil_append] at he
        split at he <;> simp at he <;> casesm* _ ∨ _ <;> subst_vars <;> simp
      · cases hd : DropPiece game column with
        | none => simp [hd] at h
        | some res =>
          obtain ⟨game', success⟩ := res
          cases success <;>
          · simp only [hd, Bool.false_eq_true, if_false, if_true, Option.some.injEq] at h
            subst h
            intro e he
            simp only [Run.unlock_log, Run.note_log, Run.note_held, Run.lock_log, Run.lock_held,
              Run.update_log, Run.update_held, broadcastGameStateRun_log,
              getGameLockRun_log, getGameLockRun_held, Run.start, List.nil_append] at he
            split at he <;> simp at he <;> casesm* _ ∨ _ <;> subst_vars <;> simp

/-- Every access of `handleClientDisconnect` is the `delete` of line 187, in
`getGameLock`, or inside the critical section. -/
theorem handleClientDisconnectRun_shape (s : Server) (id : Nat) (client : Client)
    (r : Run) (hc : clientById s id = some client)
    (h : handleClientDisconnectRun (Run.start s) id = some r) :
    ∀ e ∈ r.log, EntryShape client.GameID 191 e := by
  unfold handleClientDisconnectRun at h
  have hc' : clientById (Run.start s).server id = some client := hc
  simp only [hc'] at h
  split at h
  · simp only [Option.some.injEq] at h
    subst h
    intro e he
    simp only [Run.unlock_log, Run.note_log, Run.note_held, Run.lock_log, Run.lock_held,
      Run.update_log, Run.update_held, Run.update_server, Run.note_server,
      getGameLockRun_log, getGameLockRun_held, Run.start, List.nil_append] at he
    split at he <;> simp at he <;> casesm* _ ∨ _ <;> subst_vars <;> simp [EntryShape]
  · split at h
    · simp at h
    · simp only [Option.some.injEq] at h
      subst h
      intro e he
      simp only [Run.unlock_log, Run.note_log, Run.note_held, Run.lock_log, Run.lock_held,
        Run.update_log, Run.update_held, Run.update_server, Run.note_server,
        broadcastGameStateRun_log,
        getGameLockRun_log, getGameLockRun_held, Run.start, List.nil_append] at he
      split at he <;> simp at he <;> casesm* _ ∨ _ <;> subst_vars <;> simp [EntryShape]
  · split at h
    · simp at h
    · split at h <;>
      · simp only [Option.some.injEq] at h
        subst h
        intro e he
        simp only [Run.unlock_log, Run.note_log, Run.note_held, Run.lock_log, Run.lock_held,
          Run.update_log, Run.update_held, Run.update_server, Run.note_server,
          broadcastGameStateRun_log,
          getGameLockRun_log, getGameLockRun_held, Run.start, List.nil_append] at he
        split at he <;> simp at he <;> casesm* _ ∨ _ <;> subst_vars <;> simp [EntryShape]

theorem Run.unlock_held (r : Run) (g : String) : (r.unlock g).held = r.held.erase g := rfl
theorem Run.start_held (s : Server) : (Run.start s).held = [] := rfl
theorem Run.start_log (s : Server) : (Run.start s).log = [] := rfl
theorem Run.start_server (s : Server) : (Run.start s).server = s := rfl

/-- Every access of `handleConnections` is in `getGameLock`, inside the
critical section, or the `sendGameState` of line 93. -/
theorem handleConnectionsRun_shape (s : Server) (id : Nat) (query : String) :
    ∀ e ∈ (handleConnectionsRun (Run.start s) id query).1.log,
      EntryShape (sessionOf query) 61 e := by
  unfold handleConnectionsRun
  simp only
  split
  · intro e he
    split at he <;>
    · simp only [Run.unlock_log, Run.note_log, Run.note_held, Run.lock_log, Run.lock_held,
        Run.update_log, Run.update_held, Run.unlock_held, getGameLockRun_log,
        getGameLockRun_held, Run.start_held, Run.start_log, Run.start_server,
        List.nil_append, List.erase_cons_head] at he
      split at he <;> simp at he <;> casesm* _ ∨ _ <;> subst_vars <;> simp [EntryShape]
  · intro e he
    split at he <;>
    · simp only [Run.unlock_log, Run.note_log, Run.note_held, Run.lock_log, Run.lock_held,
        Run.update_log, Run.update_held, Run.unlock_held, getGameLockRun_log,
        getGameLockRun_held, Run.start_held, Run.start_log, Run.start_server,
        List.nil_append, List.erase_cons_head] at he
      split at he <;> simp at he <;> casesm* _ ∨ _ <;> subst_vars <;> simp [EntryShape]
  · intro e he
    simp only [Run.unlock_log, Run.note_log, Run.note_held, Run.lock_log, Run.lock_held,
      Run.update_log, Run.update_held, Run.unlock_held, getGameLockRun_log,
      getGameLockRun_held, Run.start_held, Run.start_log, Run.start_server,
      List.nil_append, List.erase_cons_head] at he
    split at he <;> simp at he <;> casesm* _ ∨ _ <;> subst_vars <;> simp [EntryShape]

theorem sendTo_fresh (l : List Client) (id : Nat) (msg : OutMsg)
    (hfresh : ∀ c ∈ l, c.id ≠ id) :
    l.map (fun client => if client.id = id then enqueue msg client else client) = l := by
  conv_rhs => rw [← List.map_id l]
  apply List.map_congr_left
  intro c hc
  simp only [if_neg (hfresh c hc), id_eq]

theorem sendTo_append (l : List Client) (games : String → Option Game)
    (locks : String → Bool) (c0 : Client) (msg : OutMsg)
    (hfresh : ∀ c ∈ l, c.id ≠ c0.id) :
    sendTo (Server.mk (l ++ [c0]) games locks) c0.id msg
      = Server.mk (l ++ [enqueue msg c0]) games locks := by
  unfold sendTo
  simp only [List.map_append, sendTo_fresh l c0.id msg hfresh, List.map_cons, List.map_nil,
    if_true]

theorem sendTo_games (s : Server) (id : Nat) (msg : OutMsg) :
    (sendTo s id msg).games = s.games := rfl

theorem sendTo_twice (l : List Client) (games : String → Option Game)
    (locks : String → Bool) (c0 : Client) (m1 m2 : OutMsg)
    (hfresh : ∀ c ∈ l, c.id ≠ c0.id) :
    sendTo (sendTo (Server.mk (l ++ [c0]) games locks) c0.id m1) c0.id m2
      = Server.mk (l ++ [enqueue m2 (enqueue m1 c0)]) games locks := by
  rw [sendTo_append _ _ _ c0 _ hfresh]
  exact sendTo_append _ _ _ (enqueue m1 c0) _ hfresh

/-- The logged `handleConnections` computes what `handleConnections` computes,
for a freshly allocated client. -/
theorem handleConnectionsRun_server (s : Server) (id : Nat) (query : String)
    (hfresh : ∀ c ∈ s.clients, c.id ≠ id) :
    ((handleConnectionsRun (Run.start s) id query).1.server,
        (handleConnectionsRun (Run.start s) id query).2)
      = handleConnections s id query := by
  unfold handleConnectionsRun handleConnections
  simp only [Run.note_server, Run.lock_server, getGameLockRun_server, Run.start_server]
  rw [show (if query = "" then "game-1" else query) = sessionOf query from rfl]
  have hfresh' : ∀ c ∈ (getGameLock s (sessionOf query)).clients, c.id ≠ id := by
    rw [getGameLock_clients]; exact hfresh
  cases hp : getPlayersInGame (getGameLock s (sessionOf query)) (sessionOf query) with
  | nil =>
    cases hg : (getGameLock s (sessionOf query)).games (sessionOf query) with
    | none =>
      simp only [Run.update_server, Run.note_server, Run.unlock_server, Run.lock_server,
        getGameLockRun_server, Run.start_server, sendTo_games, hg, Prod.mk.injEq, and_true]
      exact sendTo_twice _ _ _ (Client.mk id (sessionOf query) 1 false []) _ _ hfresh'
    | some g =>
      simp only [Run.update_server, Run.note_server, Run.unlock_server, Run.lock_server,
        getGameLockRun_server, Run.start_server, sendTo_games, hg, Prod.mk.injEq, and_true]
      exact sendTo_twice _ _ _ (Client.mk id (sessionOf query) 1 false []) _ _ hfresh'
  | cons p rest =>
    cases rest with
    | nil =>
      cases hg : (getGameLock s (sessionOf query)).games (sessionOf query) with
      | none =>
        simp only [Run.update_server, Run.note_server, Run.unlock_server, Run.lock_server,
          getGameLockRun_server, Run.start_server, sendTo_games, hg, Prod.mk.injEq, and_true]
        exact sendTo_twice _ _ _ (Client.mk id (sessionOf query) (otherPlayer p) false [])
          _ _ hfresh'
      | some g =>
        simp only [Run.update_server, Run.note_server, Run.unlock_server, Run.lock_server,
          getGameLockRun_server, Run.start_server, sendTo_games, hg, Prod.mk.injEq, and_true]
        exact sendTo_twice _ _ _ (Client.mk id (sessionOf query) (otherPlayer p) false [])
          _ _ hfresh'
    | cons q rest' =>
      simp only [Run.unlock_server, Run.note_server, Run.lock_server, getGameLockRun_server,
        Run.start_server]

theorem asDesigned_of_shape (gameID : String) (lockLine : Nat) (e : Entry)
    (hl : lockLine = 61 ∨ lockLine = 114 ∨ lockLine = 191)
    (h : EntryShape gameID lockLine e) : e.asDesigned gameID := by
  rcases h with h | ⟨h1, h2, h3⟩ | ⟨h1, h2, h3⟩ | ⟨h1, h2, h3⟩
  · exact ⟨fun _ _ _ => by rw [h]; exact List.mem_singleton_self _,
      fun _ => Or.inl (by rw [h]; exact List.mem_singleton_self _)⟩
  · refine ⟨fun hs => ?_, fun _ => Or.inr ⟨by rw [h2]; exact hl, h1⟩⟩
    rcases h3 with h3 | h3 <;> rw [h3] at hs <;> exact absurd hs (by decide)
  · exact ⟨fun _ hne => absurd h2 hne, fun ha => by rw [h3] at ha; exact absurd ha (by decide)⟩
  · exact ⟨fun _ _ hne => absurd h2 hne,
      fun ha => by rw [h3] at ha; exact absurd ha (by decide)⟩

/-- The matchmaking read of `handleConnections` is made under the session lock. -/
theorem handleConnectionsRun_matchmaking (s : Server) (id : Nat) (query : String) :
    Entry.mk 64 Access.clientsRead [sessionOf query]
      ∈ (handleConnectionsRun (Run.start s) id query).1.log := by
  unfold handleConnectionsRun
  simp only
  split
  · split <;>
    · simp only [Run.unlock_log, Run.note_log, Run.note_held, Run.lock_log, Run.lock_held,
        Run.update_log, Run.update_held, Run.unlock_held, getGameLockRun_log,
        getGameLockRun_held, Run.start_held, Run.start_log, Run.start_server,
        List.nil_append, List.erase_cons_head]
      simp
  · split <;>
    · simp only [Run.unlock_log, Run.note_log, Run.note_held, Run.lock_log, Run.lock_held,
        Run.update_log, Run.update_held, Run.unlock_held, getGameLockRun_log,
        getGameLockRun_held, Run.start_held, Run.start_log, Run.start_server,
        List.nil_append, List.erase_cons_head]
      simp
  · simp only [Run.unlock_log, Run.note_log, Run.note_held, Run.lock_log, Run.lock_held,
      Run.update_log, Run.update_held, Run.unlock_held, getGameLockRun_log,
      getGameLockRun_held, Run.start_held, Run.start_log, Run.start_server,
      List.nil_append, List.erase_cons_head]
    simp

/-- The first access of `handleConnections` to a session without a mutex is the
insertion into `gameLocks`, made with no mutex held. -/
theorem handleConnectionsRun_insert (s : Server) (id : Nat) (query : String)
    (h : s.gameLocks (sessionOf query) = false) :
    Entry.mk 61 Access.locksWrite []
      ∈ (handleConnectionsRun (Run.start s) id query).1.log := by
  unfold handleConnectionsRun
  simp only
  split
  · split <;>
    · simp only [Run.unlock_log, Run.note_log, Run.note_held, Run.lock_log, Run.lock_held,
        Run.update_log, Run.update_held, Run.unlock_held, getGameLockRun_log,
        getGameLockRun_held, Run.start_held, Run.start_log, Run.start_server,
        List.nil_append, List.erase_cons_head]
      simp [h]
  · split <;>
    · simp only [Run.unlock_log, Run.note_log, Run.note_held, Run.lock_log, Run.lock_held,
        Run.update_log, Run.update_held, Run.unlock_held, getGameLockRun_log,
        getGameLockRun_held, Run.start_held, Run.start_log, Run.start_server,
        List.nil_append, List.erase_cons_head]
      simp [h]
  · simp only [Run.unlock_log, Run.note_log, Run.note_held, Run.lock_log, Run.lock_held,
      Run.update_log, Run.update_held, Run.unlock_held, getGameLockRun_log,
      getGameLockRun_held, Run.start_held, Run.start_log, Run.start_server,
      List.nil_append, List.erase_cons_head]
    simp [h]

/-- The lookup of the game and the search for the remaining clients in
`handleClientDisconnect` are made under the session lock. -/
theorem handleClientDisconnectRun_locked (s : Server) (id : Nat) (client : Client)
    (r : Run) (hc : clientById s id = some client)
    (h : handleClientDisconnectRun (Run.start s) id = some r) :
    Entry.mk 195 Access.gameRead [client.GameID] ∈ r.log ∧
      Entry.mk 197 Access.clientsRead [client.GameID] ∈ r.log := by
  unfold handleClientDisconnectRun at h
  have hc' : clientById (Run.start s).server id = some client := hc
  simp only [hc'] at h
  split at h
  · simp only [Option.some.injEq] at h
    subst h
    simp only [Run.unlock_log, Run.note_log, Run.note_held, Run.lock_log, Run.lock_held,
      Run.update_log, Run.update_held, Run.update_server, Run.note_server,
      getGameLockRun_log, getGameLockRun_held, Run.start_held, Run.start_log, List.nil_append]
    simp
  · split at h
    · simp at h
    · simp only [Option.some.injEq] at h
      subst h
      simp only [Run.unlock_log, Run.note_log, Run.note_held, Run.lock_log, Run.lock_held,
        Run.update_log, Run.update_held, Run.update_server, Run.note_server,
        broadcastGameStateRun_log,
        getGameLockRun_log, getGameLockRun_held, Run.start_held, Run.start_log, List.nil_append]
      simp
  · split at h
    · simp at h
    · split at h <;>
      · simp only [Option.some.injEq] at h
        subst h
        simp only [Run.unlock_log, Run.note_log, Run.note_held, Run.lock_log, Run.lock_held,
          Run.update_log, Run.update_held, Run.update_server, Run.note_server,
          broadcastGameStateRun_log,
          getGameLockRun_log, getGameLockRun_held, Run.start_held, Run.start_log,
          List.nil_append]
        simp

/-- C15, as the code has it. Each handler is run statement by statement with
the mutexes it holds (and computes what the handler computes). Every access to
the session's game state or bound connections holds that session's mutex, in
`handleMessage` without exception, and in `handleConnections` and
`handleClientDisconnect` wherever it is made except at lines 93 and 187, of
which nothing is said; the matchmaking read (64) and the disconnect's lookups
(195, 197) are among the accesses made under the mutex. `games` is assigned to
and deleted from, and `gameLocks` deleted from, only under that session's
mutex. There is no registry-wide mutex: `getGameLock` inserts a missing entry
into `gameLocks` with no mutex held. -/
theorem lock_discipline_by_design (s : Server) (id : Nat) (msg : InMsg) (query : String) :
    (∀ e ∈ (handleConnectionsRun (Run.start s) id query).1.log,
        e.asDesigned (sessionOf query)) ∧
      (∀ client r, clientById s id = some client →
        handleMessageRun (Run.start s) id msg = some r →
        ∀ e ∈ r.log, (e.access.isSession = true → client.GameID ∈ e.held) ∧
          e.asDesigned client.GameID) ∧
      (∀ client r, clientById s id = some client →
        handleClientDisconnectRun (Run.start s) id = some r →
        (∀ e ∈ r.log, e.asDesigned client.GameID) ∧
          Entry.mk 195 Access.gameRead [client.GameID] ∈ r.log ∧
          Entry.mk 197 Access.clientsRead [client.GameID] ∈ r.log) ∧
      Entry.mk 64 Access.clientsRead [sessionOf query]
        ∈ (handleConnectionsRun (Run.start s) id query).1.log ∧
      (s.gameLocks (sessionOf query) = false →
        Entry.mk 61 Access.locksWrite []
          ∈ (handleConnectionsRun (Run.start s) id query).1.log) ∧
      (handleMessageRun (Run.start s) id msg).map Run.server = handleMessage s id msg ∧
      (handleClientDisconnectRun (Run.start s) id).map Run.server
        = handleClientDisconnect s id ∧
      ((∀ c ∈ s.clients, c.id ≠ id) →
        ((handleConnectionsRun (Run.start s) id query).1.server,
            (handleConnectionsRun (Run.start s) id query).2)
          = handleConnections s id query) := by
  refine ⟨?_, ?_, ?_, handleConnectionsRun_matchmaking s id query,
    handleConnectionsRun_insert s id query, handleMessageRun_server (Run.start s) id msg,
    handleClientDisconnectRun_server (Run.start s) id, handleConnectionsRun_server s id query⟩
  · intro e he
    exact asDesigned_of_shape _ 61 e (Or.inl rfl) (handleConnectionsRun_shape s id query e he)
  · intro client r hc hr e he
    have hshape := handleMessageRun_shape s id msg client r hc hr e he
    refine ⟨?_, asDesigned_of_shape _ 114 e (Or.inr (Or.inl rfl)) ?_⟩
    · intro hs
      rcases hshape with h | ⟨_, _, h3⟩
      · rw [h]; exact List.mem_singleton_self _
      · rcases h3 with h3 | h3 <;> rw [h3] at hs <;> exact absurd hs (by decide)
    · rcases hshape with h | h
      · exact Or.inl h
      · exact Or.inr (Or.inl h)
  · intro client r hc hr
    refine ⟨?_, handleClientDisconnectRun_locked s id client r hc hr⟩
    intro e he
    exact asDesigned_of_shape _ 191 e (Or.inr (Or.inr rfl))
      (handleClientDisconnectRun_shape s id client r hc hr e he)

theorem lock_discipline_by_design_witness :
    (Entry.mk 76 Access.clientsWrite ["game-1"]).asDesigned (sessionOf "") ∧
      Entry.mk 61 Access.locksWrite []
        ∈ (handleConnectionsRun (Run.start emptyServer) 1 "").1.log :=
  ⟨(lock_discipline_by_design emptyServer 1 InMsg.other "").1 _ (by decide),
    (lock_discipline_by_design emptyServer 1 InMsg.other "").2.2.2.2.1 rfl⟩

/-- C15 as stated fails on the code, in three places. No mutex is registry-wide:
the first connection to a session inserts into `gameLocks` with no mutex held,
so whatever the registry lock is, that mutation is made without it. And two
session accesses are made without the session's mutex: the `sendGameState` of
line 93, after `Unlock`, and the `delete(clients, client)` of line 187, before
`Lock`. -/
theorem lock_discipline_counterexample :
    (¬ ∃ registryLock : String,
        ∀ e ∈ (handleConnectionsRun (Run.start emptyServer) 1 "").1.log,
          e.access.isRegistryWrite = true → registryLock ∈ e.held) ∧
      (∃ e ∈ (handleConnectionsRun (Run.start emptyServer) 1 "").1.log,
        e.line = 93 ∧ e.access.isSession = true ∧ sessionOf "" ∉ e.held) ∧
      (∃ r, handleClientDisconnectRun (Run.start (pairServer NewGame)) 1 = some r ∧
        ∃ e ∈ r.log, e.line = 187 ∧ e.access.isSession = true ∧ clientOne.GameID ∉ e.held) := by
  refine ⟨?_, ?_, ?_⟩
  · rintro ⟨registryLock, h⟩
    have := h (Entry.mk 61 Access.locksWrite []) (by decide) rfl
    simp at this
  · exact ⟨Entry.mk 93 Access.gameRead [], by decide, rfl, rfl, by decide⟩
  · refine ⟨(handleClientDisconnectRun (Run.start (pairServer NewGame)) 1).getD
      (Run.start emptyServer), rfl, Entry.mk 187 Access.clientsWrite [], by decide, rfl, rfl,
      by decide⟩

end Connx4
